import Mathlib

/-!
Verification of the adventure-game engine core (`enhanced_artifacts`):
a shallow embedding of the domain model (items, rooms, map graph, game
state), the scoring strategies, the movement/rules engine, session-state
serialization, and the level factory with its BFS solvability analysis,
together with theorems checking the specification's claims against it.

Modelling conventions:
- Python `dict`s become association lists (`List (key × value)`), preserving
  insertion order; Python `set`/`frozenset` become `Finset String`.
- Python `float` arithmetic in the scoring formulas is modelled as exact
  rational arithmetic (`ℚ`); the multipliers 0.75/1.0/1.25 and 0.5 are
  exactly representable, and `int(...)` truncation is modelled by `pyInt`.
- `datetime` values are modelled by their ISO-8601 text, under which
  `isoformat`/`fromisoformat` are identities.
- Exceptions become `Except String` / `Option` results.
-/

/-- Python `int(x)` applied to an exact rational: truncation toward zero. -/
def pyInt (q : ℚ) : ℤ :=
  q.num.tdiv q.den

/-- Python truthiness of an `Optional[int]`: `None` and `0` are falsy
(`if not level.optimal_moves: ...`). -/
def pyFalsyOptNat : Option Nat → Bool
  | none => true
  | some 0 => true
  | some (_ + 1) => false

/-- `models/domain/item.py`: the closed tagged variant of room items built by
the level factory (`Relic(name)` with `render_key = "relic"`, `Villain(name)`
with `render_key = "villain"`). -/
inductive Item where
  | relic (name : String)
  | villain (name : String)
deriving DecidableEq

/-- `Item.name`. -/
def Item.name : Item → String
  | .relic n => n
  | .villain n => n

/-- `Item.render_key`. -/
def Item.render_key : Item → String
  | .relic _ => "relic"
  | .villain _ => "villain"

/-- `models/domain/room.py`: a room with directional exits and an optional
item; `exits` is the insertion-ordered direction → room-name mapping. -/
structure Room where
  name : String
  exits : List (String × String)
  item : Option Item
deriving DecidableEq

/-- `models/domain/map_graph.py`: rooms plus render-only coordinates. -/
structure MapGraph where
  rooms : List (String × Room)
  coords : List (String × (Int × Int))
deriving DecidableEq

/-- Python `self.rooms[room_name]` (the lookups in `MapGraph.move`,
`MapGraph.neighbors` and the controller); rooms are only looked up by names
validated to exist, so the default is never reached on validated levels. -/
def MapGraph.roomOf (g : MapGraph) (room_name : String) : Room :=
  (List.lookup room_name g.rooms).getD { name := room_name, exits := [], item := none }

/-- `MapGraph.neighbors`: all outgoing exits of a room. -/
def MapGraph.neighbors (g : MapGraph) (room_name : String) : List (String × String) :=
  (g.roomOf room_name).exits

/-- `models/domain/status.py`: the game lifecycle status. -/
inductive GameStatus where
  | IN_PROGRESS
  | COMPLETED
  | GAME_OVER
deriving DecidableEq

/-- `GameStatus.value`: the canonical string of each status. -/
def GameStatus.value : GameStatus → String
  | .IN_PROGRESS => "in_progress"
  | .COMPLETED => "completed"
  | .GAME_OVER => "game_over"

/-- The `GameStatus(raw)` enum constructor: succeeds exactly on the three
canonical strings (Python raises `ValueError` otherwise, modelled by `none`). -/
def GameStatus.ofValue : String → Option GameStatus
  | "in_progress" => some .IN_PROGRESS
  | "completed" => some .COMPLETED
  | "game_over" => some .GAME_OVER
  | _ => none

/-- `GameStatus.is_terminal`: `COMPLETED` or `GAME_OVER`. -/
def GameStatus.is_terminal : GameStatus → Bool
  | .COMPLETED => true
  | .GAME_OVER => true
  | .IN_PROGRESS => false

/-- `models/domain/player.py`: the player holds only a current location. -/
structure Player where
  location : String
deriving DecidableEq

/-- `models/domain/game_state.py`: the mutable session state. The two
`datetime` fields are modelled by their ISO-8601 text. -/
structure GameState where
  level_id : String
  player : Player
  visited_rooms : Finset String
  collected_items : Finset String
  move_count : Nat
  status : GameStatus
  message : Option String
  event_log : List String
  started_at : String
  updated_at : String
  encountered_villain : Bool
deriving DecidableEq

/-- `GameState.visit`: record that the player has entered a room. -/
def GameState.visit (state : GameState) (room_name : String) : GameState :=
  { state with visited_rooms := insert room_name state.visited_rooms }

/-- `GameState.start`: a freshly started session (`now()` is supplied as the
ISO text `t` since the embedding performs no I/O). -/
def GameState.start (level_id start_room : String) (t : String) : GameState :=
  { level_id := level_id
    player := { location := start_room }
    visited_rooms := {start_room}
    collected_items := ∅
    move_count := 0
    status := .IN_PROGRESS
    message := none
    event_log := []
    started_at := t
    updated_at := t
    encountered_villain := false }

/-- `models/domain/difficulty.py`: the difficulty enumeration. -/
inductive Difficulty where
  | EASY
  | MEDIUM
  | HARD
deriving DecidableEq

/-- The `Difficulty(raw)` enum constructor (`none` models `ValueError`). -/
def Difficulty.ofValue : String → Option Difficulty
  | "easy" => some .EASY
  | "medium" => some .MEDIUM
  | "hard" => some .HARD
  | _ => none

/-- `models/behavior/scoring_policy.py` composed with
`Difficulty.scoring_policy`: the multiplier of the resolved scoring policy
(`EasyScoring` 0.75, `MediumScoring` 1.0, `HardScoring` 1.25). -/
def Difficulty.multiplier : Difficulty → ℚ
  | .EASY => 0.75
  | .MEDIUM => 1.0
  | .HARD => 1.25

/-- `models/domain/rules.py`: `StandardRules` carries the required-item set. -/
structure StandardRules where
  required_items : Finset String
deriving DecidableEq

/-- `models/domain/level.py`: the immutable level configuration. The Python
dataclass also stores the difficulty-resolved visibility policy and scoring
strategy objects; those are stateless and fully determined by `difficulty`
(see `Difficulty.scoring_strategy`), so they are not duplicated as fields. -/
structure Level where
  id : String
  name : String
  difficulty : Difficulty
  start_room : String
  map : MapGraph
  rules : StandardRules
  optimal_moves : Option Nat
deriving DecidableEq

/-- `StandardScore.WIN_BASE`. -/
def StandardScore.WIN_BASE : ℕ := 1000

/-- `StandardScore.MAX_PROGRESS_SCORE`. -/
def StandardScore.MAX_PROGRESS_SCORE : ℕ := 500

/-- `StandardScore.MAX_EFFICIENCY_SCORE`. -/
def StandardScore.MAX_EFFICIENCY_SCORE : ℕ := 1000

/-- `MaxMovesScore.OVERAGE_PENALTY_FACTOR`. -/
def MaxMovesScore.OVERAGE_PENALTY_FACTOR : ℚ := 0.5

/-- `StandardScore.calculate` from `models/domain/scoring.py`:
progress score always; on completion, the efficiency score scaled by the
difficulty multiplier on top of the win base. -/
def StandardScore.calculate (state : GameState) (level : Level) : ℤ :=
  let collected : ℕ := state.collected_items.card
  let total_required : ℕ := level.rules.required_items.card
  let progress : ℚ :=
    if total_required ≠ 0 then (collected : ℚ) / (total_required : ℚ) else 0.0
  let progress_score : ℤ := pyInt ((StandardScore.MAX_PROGRESS_SCORE : ℚ) * progress)
  if state.status ≠ GameStatus.COMPLETED then
    progress_score
  else
    let efficiency : ℚ :=
      if pyFalsyOptNat level.optimal_moves || state.move_count ≤ 0 then 1.0
      else min ((level.optimal_moves.getD 0 : ℚ) / (state.move_count : ℚ)) 1.0
    let efficiency_score : ℤ := pyInt ((StandardScore.MAX_EFFICIENCY_SCORE : ℚ) * efficiency)
    let multiplier : ℚ := level.difficulty.multiplier
    pyInt ((StandardScore.WIN_BASE : ℚ) + (progress_score : ℚ) + (efficiency_score : ℚ) * multiplier)

/-- `MaxMovesScore.calculate`: the standard score, then an overage penalty
when a completed run exceeded the optimal move count. -/
def MaxMovesScore.calculate (state : GameState) (level : Level) : ℤ :=
  let base_score : ℤ := StandardScore.calculate state level
  if state.status ≠ GameStatus.COMPLETED then
    base_score
  else if pyFalsyOptNat level.optimal_moves then
    base_score
  else if state.move_count ≤ level.optimal_moves.getD 0 then
    base_score
  else
    let overage : ℕ := state.move_count - level.optimal_moves.getD 0
    let penalty_ratio : ℚ := min ((overage : ℚ) / (level.optimal_moves.getD 0 : ℚ)) 1.0
    let penalty : ℤ := pyInt ((base_score : ℚ) * penalty_ratio * MaxMovesScore.OVERAGE_PENALTY_FACTOR)
    max (base_score - penalty) 0

/-- `Difficulty.scoring_strategy`: the difficulty-resolved scoring algorithm
(`StandardScore` for easy/medium, `MaxMovesScore` for hard). -/
def Difficulty.scoring_strategy : Difficulty → GameState → Level → ℤ
  | .EASY => StandardScore.calculate
  | .MEDIUM => StandardScore.calculate
  | .HARD => MaxMovesScore.calculate

/-- `Relic.on_enter` / `Villain.on_enter` from `models/domain/item.py`,
dispatched over the closed item variant: relics auto-collect idempotently,
the villain sets the set-once encounter flag. -/
def Item.on_enter (it : Item) (state : GameState) : GameState :=
  match it with
  | .relic name =>
    if name ∈ state.collected_items then
      state
    else
      { state with
          collected_items := insert name state.collected_items
          event_log := state.event_log ++ ["Collected " ++ name]
          message := some ("Collected " ++ name) }
  | .villain _ =>
    if state.encountered_villain then
      state
    else
      { state with
          encountered_villain := true
          event_log := state.event_log ++ ["Encountered the villain"] }

/-- `StandardRules.check` from `models/domain/rules.py`: in the villain's room,
a superset test of `collected_items` against `required_items` decides win or
loss; any other room leaves the state untouched. -/
def StandardRules.check (rules : StandardRules) (state : GameState) (room : Room) : GameState :=
  match room.item with
  | some (.villain _) =>
    if rules.required_items ⊆ state.collected_items then
      { state with status := .COMPLETED, message := some "You defeated the villain!" }
    else
      { state with status := .GAME_OVER, message := some "You found the villain too soon." }
  | _ => state

/-- The state mutation performed by `GameController.move`
(`controllers/game.py`, persistence and timestamping elided): terminal guard,
wall bump, or movement followed by item behavior and rules evaluation. -/
def GameController.move (level : Level) (state : GameState) (direction : String) : GameState :=
  if state.status.is_terminal then
    { state with message := some "Game already ended." }
  else
    let room := level.map.roomOf state.player.location
    match List.lookup direction room.exits with
    | none =>
      { state with
          move_count := state.move_count + 1
          message := some "You bumped into a wall."
          event_log := state.event_log ++ ["Bumped into a wall"] }
    | some next_room =>
      let state1 : GameState :=
        { state with player := { location := next_room }, move_count := state.move_count + 1 }
      let state2 := state1.visit next_room
      let state3 : GameState :=
        { state2 with
            event_log := state2.event_log ++ ["Moved " ++ direction ++ " to " ++ next_room]
            message := none }
      let entered_room := level.map.roomOf next_room
      let state4 :=
        match entered_room.item with
        | some it => it.on_enter state3
        | none => state3
      level.rules.check state4 entered_room

/-- A session state obtained from `GameState.start` by a sequence of
`GameController.move` calls against its level. -/
def ReachableState (level : Level) (state : GameState) : Prop :=
  ∃ (t : String) (directions : List String),
    state = directions.foldl (GameController.move level) (GameState.start level.id level.start_room t)

/-- The JSON-compatible dictionary produced by `gamestate_to_dict`
(`models/records/serialization.py`). -/
structure GameStateDict where
  level_id : String
  player_location : String
  visited_rooms : List String
  collected_items : List String
  move_count : Nat
  status : String
  message : Option String
  event_log : List String
  encountered_villain : Bool
  started_at : String
  updated_at : String
deriving DecidableEq

/-- `gamestate_to_dict`: sets become lists (Python's `list(set)` enumerates in
an unspecified order; the model enumerates in sorted order), the status enum
its string value, datetimes their ISO text (identity in this model). -/
def gamestate_to_dict (state : GameState) : GameStateDict :=
  { level_id := state.level_id
    player_location := state.player.location
    visited_rooms := state.visited_rooms.sort (· ≤ ·)
    collected_items := state.collected_items.sort (· ≤ ·)
    move_count := state.move_count
    status := state.status.value
    message := state.message
    event_log := state.event_log
    encountered_villain := state.encountered_villain
    started_at := state.started_at
    updated_at := state.updated_at }

/-- `gamestate_from_dict`: rebuild the state (`none` models the `ValueError`
from `GameStatus(...)` on an unknown status string), then re-assert the
current location into `visited_rooms`. -/
def gamestate_from_dict (data : GameStateDict) : Option GameState :=
  match GameStatus.ofValue data.status with
  | none => none
  | some status =>
    let state : GameState :=
      { level_id := data.level_id
        player := { location := data.player_location }
        visited_rooms := data.visited_rooms.toFinset
        collected_items := data.collected_items.toFinset
        move_count := data.move_count
        status := status
        message := data.message
        event_log := data.event_log
        started_at := data.started_at
        updated_at := data.updated_at
        encountered_villain := data.encountered_villain }
    some { state with visited_rooms := insert state.player.location state.visited_rooms }

/-- An `item` entry of a level definition (`{"type": ..., "name": ...}`). -/
structure ItemDef where
  type : String
  name : String
deriving DecidableEq

/-- A `rooms` entry of a level definition. -/
structure RoomDef where
  exits : List (String × String)
  item : Option ItemDef
deriving DecidableEq

/-- A level definition record (the external input format of §6): the required
top-level keys are structure fields, so the missing-keys check of
`validate_level_definition` holds by construction. -/
structure LevelDefn where
  id : String
  name : String
  difficulty : String
  start_room : String
  rooms : List (String × RoomDef)
  coords : List (String × (Int × Int))
  required_items : List String
deriving DecidableEq

/-- The room-name key set of a definition's `rooms` mapping. -/
def LevelDefn.roomNames (d : LevelDefn) : List String :=
  d.rooms.map Prod.fst

/-- `validate_level_definition` from `models/behavior/validation.py`:
start room exists, exits are closed, every room has coordinates, and exactly
one room holds a villain item. -/
def validate_level_definition (d : LevelDefn) : Except String Unit :=
  if ! d.roomNames.contains d.start_room then
    .error "Start room does not exist"
  else if d.rooms.any (fun rd => rd.2.exits.any (fun e => ! d.roomNames.contains e.2)) then
    .error "invalid exit"
  else if d.rooms.any (fun rd => ! (d.coords.map Prod.fst).contains rd.1) then
    .error "missing coordinates"
  else if (d.rooms.filter (fun rd =>
      match rd.2.item with
      | some it => it.type == "villain"
      | none => false)).length ≠ 1 then
    .error "Level must contain exactly one villain"
  else
    .ok ()

/-- A BFS search state: `(room, collected-required-items)` as in the Python
`(room, frozenset)` composite key. -/
abbrev BState := String × Finset String

/-- The item-pickup step of the BFS
(`if room_item and room_item.name in required_items and ...`). -/
def pickupItems (required : Finset String) (room : Room) (items : Finset String) : Finset String :=
  match room.item with
  | some it => if it.name ∈ required ∧ it.name ∉ items then insert it.name items else items
  | none => items

/-- `room_item and room_item.render_key == "villain"`. -/
def roomIsVillain (room : Room) : Bool :=
  match room.item with
  | some it => it.render_key == "villain"
  | none => false

/-- The `while queue:` loop of `compute_optimal_moves`, with the FIFO deque as
a list and an explicit fuel parameter (the loop's termination is proved below
for `bfsFuel`): `none` is fuel exhaustion (never reached), `some none` the
exhausted queue (the level is unsolvable), `some (some d)` a solution at
distance `d`. -/
def bfsLoop (g : MapGraph) (required : Finset String) :
    Nat → List BState → List (BState × Nat) → Option (Option Nat)
  | 0, _, _ => none
  | _ + 1, _, [] => some none
  | fuel + 1, visited, ((room, items), dist) :: queue =>
    if (room, items) ∈ visited then
      bfsLoop g required fuel visited queue
    else
      let visited' := (room, items) :: visited
      let items' := pickupItems required (g.roomOf room) items
      if roomIsVillain (g.roomOf room) then
        if required ⊆ items' then some (some dist)
        else bfsLoop g required fuel visited' queue
      else
        bfsLoop g required fuel visited'
          (queue ++ (g.neighbors room).map (fun e => ((e.2, items'), dist + 1)))

/-- The room-name key set of a map graph. -/
def MapGraph.roomNames (g : MapGraph) : List String :=
  g.rooms.map Prod.fst

/-- An upper bound on the out-degree of any room. -/
def maxExitCount (g : MapGraph) : ℕ :=
  (g.rooms.map (fun rd => rd.2.exits.length)).foldr max 0

/-- The finite universe of BFS states: rooms × subsets of the required set. -/
def stateUniverse (g : MapGraph) (required : Finset String) : Finset BState :=
  g.roomNames.toFinset ×ˢ required.powerset

/-- Fuel sufficient to run the BFS to completion (proved below). -/
def bfsFuel (g : MapGraph) (required : Finset String) : ℕ :=
  (stateUniverse g required).card * maxExitCount g + 2

/-- `compute_optimal_moves`: BFS over the `(room, collected_items)` state
space from `(start_room, frozenset())`; the `"fuel exhausted"` branch is dead
code for validated inputs (see the termination theorem below). -/
def compute_optimal_moves (g : MapGraph) (start_room : String) (required : Finset String) :
    Except String Nat :=
  match bfsLoop g required (bfsFuel g required) [] [((start_room, ∅), 0)] with
  | some (some d) => .ok d
  | some none => .error "Level is not solvable"
  | none => .error "fuel exhausted"

/-- The room-and-item construction loop of `LevelFactory.from_definition`
(unknown item kinds are rejected). -/
def buildRooms : List (String × RoomDef) → Except String (List (String × Room))
  | [] => .ok []
  | (room_name, rd) :: rest =>
    let itemE : Except String (Option Item) :=
      match rd.item with
      | some it =>
        if it.type == "relic" then .ok (some (.relic it.name))
        else if it.type == "villain" then .ok (some (.villain it.name))
        else .error ("Unknown item type: " ++ it.type)
      | none => .ok none
    match itemE with
    | .error e => .error e
    | .ok item =>
      match buildRooms rest with
      | .error e => .error e
      | .ok rooms =>
        .ok ((room_name, { name := room_name, exits := rd.exits, item := item }) :: rooms)

/-- `LevelFactory.from_definition` (`models/behavior/level_factory.py`):
validate, build rooms and map, resolve the required-item set, run the solver
(an unsolvable level is a hard construction failure), resolve the difficulty,
and assemble the immutable `Level`. -/
def LevelFactory.from_definition (d : LevelDefn) : Except String Level :=
  match validate_level_definition d with
  | .error e => .error e
  | .ok _ =>
    match buildRooms d.rooms with
    | .error e => .error e
    | .ok rooms =>
      let map_graph : MapGraph := { rooms := rooms, coords := d.coords }
      let required_items : Finset String := d.required_items.toFinset
      match compute_optimal_moves map_graph d.start_room required_items with
      | .error e => .error e
      | .ok optimal_moves =>
        match Difficulty.ofValue d.difficulty with
        | none => .error ("Unhandled difficulty: " ++ d.difficulty)
        | some difficulty =>
          .ok { id := d.id
                name := d.name
                difficulty := difficulty
                start_room := d.start_room
                map := map_graph
                rules := { required_items := required_items }
                optimal_moves := some optimal_moves }

/-- The progress-score term of `StandardScore.calculate`, as computed by the
code: `int(500 * progress)` where `progress` divides the count of *all*
collected items by the count of required items (0 when none are required). -/
def progress_score_of (state : GameState) (level : Level) : ℤ :=
  pyInt ((StandardScore.MAX_PROGRESS_SCORE : ℚ) *
    (if level.rules.required_items.card ≠ 0 then
      (state.collected_items.card : ℚ) / (level.rules.required_items.card : ℚ)
    else 0.0))

/-- The efficiency term of `StandardScore.calculate`: 1.0 when
`optimal_moves` is falsy (None or 0) or no moves were made, else the capped
ratio `min(optimal_moves / move_count, 1.0)`. -/
def efficiency_of (state : GameState) (level : Level) : ℚ :=
  if pyFalsyOptNat level.optimal_moves || state.move_count ≤ 0 then 1.0
  else min ((level.optimal_moves.getD 0 : ℚ) / (state.move_count : ℚ)) 1.0

/-- The efficiency score `int(1000 * efficiency)`. -/
def efficiency_score_of (state : GameState) (level : Level) : ℤ :=
  pyInt ((StandardScore.MAX_EFFICIENCY_SCORE : ℚ) * efficiency_of state level)

/-- The score computed by the level's difficulty-resolved scoring strategy on
a level whose difficulty (and hence multiplier and strategy) is `d` but which
is otherwise unchanged: the comparison function of the difficulty-monotonicity
claim. -/
def scoreWithDifficulty (state : GameState) (level : Level) (d : Difficulty) : ℤ :=
  d.scoring_strategy state { level with difficulty := d }

/-- The progress score as the claim words it: only collected items *belonging
to the required-item set* count toward progress. (The code counts all
collected items; see the counterexample.) -/
def claimC1Score (state : GameState) (level : Level) : ℤ :=
  let collected_required : ℕ := (state.collected_items ∩ level.rules.required_items).card
  let total_required : ℕ := level.rules.required_items.card
  let progress : ℚ :=
    if total_required ≠ 0 then (collected_required : ℚ) / (total_required : ℚ) else 0
  ⌊(500 : ℚ) * progress⌋

/-- The completed-state score as the claim words it: the capped efficiency
ratio is used whenever `optimal_moves` is *defined* (not `None`) and
`move_count > 0`. (The code also treats a defined optimum of 0 as the safe
default; see the counterexample.) -/
def claimC4Score (state : GameState) (level : Level) : ℤ :=
  let efficiency : ℚ :=
    if level.optimal_moves.isSome ∧ 0 < state.move_count then
      min ((level.optimal_moves.getD 0 : ℚ) / (state.move_count : ℚ)) 1.0
    else 1.0
  let efficiency_score : ℤ := ⌊(1000 : ℚ) * efficiency⌋
  ⌊(1000 : ℚ) + (progress_score_of state level : ℚ)
    + (efficiency_score : ℚ) * level.difficulty.multiplier⌋

/-- The penalized score as the claim words it: standard score as base, then,
exactly when the state is completed, `optimal_moves` is defined and
`move_count` exceeds it, subtract `floor(base * min(overage/optimal, 1) * 0.5)`
floored at 0. -/
def claimC5Score (state : GameState) (level : Level) : ℤ :=
  let base := StandardScore.calculate state level
  if state.status = GameStatus.COMPLETED ∧ level.optimal_moves.isSome ∧
      level.optimal_moves.getD 0 < state.move_count then
    let om := level.optimal_moves.getD 0
    let overage : ℕ := state.move_count - om
    max (base - ⌊(base : ℚ) * min ((overage : ℚ) / (om : ℚ)) 1.0 * 0.5⌋) 0
  else base

/-- Successor states of a BFS state: none past the villain's room, otherwise
one per exit, with the post-pickup item set. -/
def bfsSuccs (g : MapGraph) (required : Finset String) (s : BState) : List BState :=
  if roomIsVillain (g.roomOf s.1) then []
  else (g.neighbors s.1).map (fun e => (e.2, pickupItems required (g.roomOf s.1) s.2))

/-- A BFS state at which the search returns: the villain's room, with the
post-pickup collected set a superset of the required set. -/
def bfsGoal (g : MapGraph) (required : Finset String) (s : BState) : Prop :=
  roomIsVillain (g.roomOf s.1) = true ∧ required ⊆ pickupItems required (g.roomOf s.1) s.2

/-- Reachability of a BFS state in exactly `n` transitions from `s₀`. -/
inductive BfsReach (g : MapGraph) (required : Finset String) (s₀ : BState) : Nat → BState → Prop
  | zero : BfsReach g required s₀ 0 s₀
  | step {n : Nat} {s t : BState} :
      BfsReach g required s₀ n s → t ∈ bfsSuccs g required s → BfsReach g required s₀ (n + 1) t

/-- Some goal state is reachable in exactly `n` transitions. -/
def WinAt (g : MapGraph) (required : Finset String) (s₀ : BState) (n : Nat) : Prop :=
  ∃ s, BfsReach g required s₀ n s ∧ bfsGoal g required s

/-- The core inductive invariant of the BFS loop: `V` the visited list, `Q`
the queue, `D` the distance of the queue's head segment. Queue entries are
sound; no goal lies strictly below `D`; every state reachable within `D` is
visited or enqueued no later than its distance; successors of visited states
are visited or enqueued; and no visited state is a goal. (The companion
bookkeeping fact — queue distances are a block of `D`s followed by a block of
`D+1`s — is carried separately as `QueueDists`.) -/
structure BfsCore (g : MapGraph) (required : Finset String) (s₀ : BState)
    (V : List BState) (Q : List (BState × Nat)) (D : Nat) : Prop where
  soundQ : ∀ p ∈ Q, BfsReach g required s₀ p.2 p.1
  noGoalBelow : ∀ m < D, ∀ u, BfsReach g required s₀ m u → ¬ bfsGoal g required u
  covered : ∀ m ≤ D, ∀ u, BfsReach g required s₀ m u → u ∈ V ∨ ∃ e ≤ m, (u, e) ∈ Q
  closure : ∀ t ∈ V, ∀ u ∈ bfsSuccs g required t, u ∈ V ∨ ∃ e, (u, e) ∈ Q
  noGoalV : ∀ t ∈ V, ¬ bfsGoal g required t

/-- Queue distances form a (possibly empty) block at `D` followed by one at
`D + 1`, with a non-empty head block whenever the queue is non-empty. -/
def QueueDists (Q : List (BState × Nat)) (D : Nat) : Prop :=
  ∃ a b, Q.map Prod.snd = List.replicate a D ++ List.replicate b (D + 1) ∧ (a = 0 → b = 0)

/-- Every queue entry lies in the finite state universe. -/
def QUniv (g : MapGraph) (required : Finset String) (Q : List (BState × Nat)) : Prop :=
  ∀ p ∈ Q, p.1.1 ∈ g.roomNames ∧ p.1.2 ⊆ required

/-- Exit targets never leave the room set (established by
`validate_level_definition` for factory-built maps). -/
def GraphClosed (g : MapGraph) : Prop :=
  ∀ name : String, ∀ e ∈ (g.roomOf name).exits, e.2 ∈ g.roomNames

/-- The loop measure dominating the number of remaining BFS steps. -/
def bfsMeasure (g : MapGraph) (required : Finset String)
    (V : List BState) (Q : List (BState × Nat)) : ℕ :=
  (stateUniverse g required \ V.toFinset).card * maxExitCount g + Q.length + 1

/-- `isPathFrom g r p`: successive rooms of `p` are reached by exits,
starting from `r`. -/
def isPathFrom (g : MapGraph) : String → List String → Bool
  | _, [] => true
  | r, r' :: rest => (g.neighbors r).any (fun e => e.2 == r') && isPathFrom g r' rest

/-- The required items collected after entering, in order, the rooms of the
list (each entered room's required item is picked up). -/
def collectAlong (g : MapGraph) (required : Finset String) :
    Finset String → List String → Finset String
  | items, [] => items
  | items, r :: rest => collectAlong g required (pickupItems required (g.roomOf r) items) rest

/-- A winning path of the claim: a sequence of moves from the start room that
never stands in the villain's room before its final step, ends in the
villain's room, and has collected a superset of the required items. -/
def winningPath (g : MapGraph) (required : Finset String) (start : String)
    (p : List String) : Bool :=
  isPathFrom g start p &&
  (start :: p).dropLast.all (fun r => ! roomIsVillain (g.roomOf r)) &&
  roomIsVillain (g.roomOf (p.getLastD start)) &&
  decide (required ⊆ collectAlong g required ∅ (start :: p))

/-- The item value built by the factory for a definition's item entry
(`none` for an unknown kind, which `buildRooms` rejects). -/
def itemOfDef : Option ItemDef → Option Item
  | some it =>
    if it.type == "relic" then some (.relic it.name)
    else if it.type == "villain" then some (.villain it.name)
    else none
  | none => none

/-- The map graph `LevelFactory.from_definition` assembles from a definition
whose item kinds are all known. -/
def buildMapGraph (d : LevelDefn) : MapGraph :=
  { rooms := d.rooms.map (fun rd =>
      (rd.1, { name := rd.1, exits := rd.2.exits, item := itemOfDef rd.2.item }))
    coords := d.coords }

/-- All item entries of a definition carry a known kind. -/
def itemTypesKnown (d : LevelDefn) : Bool :=
  d.rooms.all (fun rd =>
    match rd.2.item with
    | some it => it.type == "relic" || it.type == "villain"
    | none => true)

/-- A well-formed level definition: structural validation passes, all item
kinds are known, and the difficulty string is one of the three difficulties
(§6's input format) — exactly the conditions under which construction cannot
fail for non-solvability reasons. -/
def WellFormedDefn (d : LevelDefn) : Prop :=
  (validate_level_definition d).isOk = true ∧ itemTypesKnown d = true ∧
    (Difficulty.ofValue d.difficulty).isSome = true

/-- Fixture level for scoring claims: only the fields read by the scoring
strategies matter. -/
def scoreLevel (req : Finset String) (om : Option Nat) (d : Difficulty) : Level :=
  { id := "fixture"
    name := "fixture"
    difficulty := d
    start_room := "A"
    map := { rooms := [], coords := [] }
    rules := { required_items := req }
    optimal_moves := om }

/-- Fixture session state for scoring claims. -/
def scoreState (st : GameStatus) (mc : ℕ) (coll : Finset String) : GameState :=
  { level_id := "fixture"
    player := { location := "A" }
    visited_rooms := {"A"}
    collected_items := coll
    move_count := mc
    status := st
    message := none
    event_log := []
    started_at := "2026-01-01T00:00:00+00:00"
    updated_at := "2026-01-01T00:00:00+00:00"
    encountered_villain := false }

/-- A two-room demonstration map: a hall with a relic, the villain's lair. -/
def demoMap : MapGraph :=
  { rooms := [
      ("Hall", { name := "Hall", exits := [("east", "Lair")], item := some (.relic "Gem") }),
      ("Lair", { name := "Lair", exits := [], item := some (.villain "Boss") })]
    coords := [("Hall", (0, 0)), ("Lair", (1, 0))] }

/-- The demonstration level over `demoMap`. -/
def demoLevel : Level :=
  { id := "demo"
    name := "Demo"
    difficulty := .EASY
    start_room := "Hall"
    map := demoMap
    rules := { required_items := {"Gem"} }
    optimal_moves := some 1 }

/-- The demonstration level as an external definition record. -/
def demoDefn : LevelDefn :=
  { id := "demo"
    name := "Demo"
    difficulty := "easy"
    start_room := "Hall"
    rooms := [
      ("Hall", { exits := [("east", "Lair")], item := some { type := "relic", name := "Gem" } }),
      ("Lair", { exits := [], item := some { type := "villain", name := "Boss" } })]
    coords := [("Hall", (0, 0)), ("Lair", (1, 0))]
    required_items := ["Gem"] }

/-- On non-negative rationals, Python `int(...)` truncation is the floor. -/
theorem pyInt_eq_floor (q : ℚ) (h : 0 ≤ q) : pyInt q = ⌊q⌋ := by
  rw [pyInt, Int.tdiv_eq_ediv (Rat.num_nonneg.2 h) (by positivity), Rat.floor_def]

/-- Truncation of a non-negative rational is non-negative. -/
theorem pyInt_nonneg (q : ℚ) (h : 0 ≤ q) : 0 ≤ pyInt q := by
  rw [pyInt_eq_floor q h]
  exact Int.floor_nonneg.2 h

/-- Truncation is monotone on non-negative rationals. -/
theorem pyInt_mono {q r : ℚ} (hq : 0 ≤ q) (h : q ≤ r) : pyInt q ≤ pyInt r := by
  rw [pyInt_eq_floor q hq, pyInt_eq_floor r (hq.trans h)]
  exact Int.floor_le_floor h

/-- `StandardScore.calculate` decomposed into its progress and efficiency
components. -/
theorem StandardScore.calculate_eq (state : GameState) (level : Level) :
    StandardScore.calculate state level =
      if state.status ≠ GameStatus.COMPLETED then progress_score_of state level
      else
        pyInt ((StandardScore.WIN_BASE : ℚ) + (progress_score_of state level : ℚ)
          + (efficiency_score_of state level : ℚ) * level.difficulty.multiplier) := rfl

/-- The progress score is non-negative. -/
theorem progress_score_of_nonneg (state : GameState) (level : Level) :
    0 ≤ progress_score_of state level := by
  apply pyInt_nonneg
  have : (0 : ℚ) ≤ (if level.rules.required_items.card ≠ 0 then
      (state.collected_items.card : ℚ) / (level.rules.required_items.card : ℚ) else 0.0) := by
    split <;> positivity
  positivity

/-- The efficiency term is non-negative. -/
theorem efficiency_of_nonneg (state : GameState) (level : Level) :
    0 ≤ efficiency_of state level := by
  unfold efficiency_of
  split
  · norm_num
  · exact le_min (by positivity) (by norm_num)

/-- The efficiency term is at most 1. -/
theorem efficiency_of_le_one (state : GameState) (level : Level) :
    efficiency_of state level ≤ 1 := by
  unfold efficiency_of
  split
  · norm_num
  · exact (min_le_right _ _).trans (by norm_num)

/-- The efficiency score is non-negative. -/
theorem efficiency_score_of_nonneg (state : GameState) (level : Level) :
    0 ≤ efficiency_score_of state level := by
  apply pyInt_nonneg
  have := efficiency_of_nonneg state level
  positivity

/-- Every difficulty multiplier is non-negative. -/
theorem Difficulty.multiplier_nonneg (d : Difficulty) : 0 ≤ d.multiplier := by
  cases d <;> norm_num [Difficulty.multiplier]

/-- The standard score is always non-negative. -/
theorem StandardScore.calculate_nonneg (state : GameState) (level : Level) :
    0 ≤ StandardScore.calculate state level := by
  rw [StandardScore.calculate_eq]
  split
  · exact progress_score_of_nonneg state level
  · apply pyInt_nonneg
    have h1 := progress_score_of_nonneg state level
    have h2 := efficiency_score_of_nonneg state level
    have h3 := level.difficulty.multiplier_nonneg
    have h1q : (0 : ℚ) ≤ (progress_score_of state level : ℚ) := by exact_mod_cast h1
    have h2q : (0 : ℚ) ≤ (efficiency_score_of state level : ℚ) := by exact_mod_cast h2
    have : (0 : ℚ) ≤ (StandardScore.WIN_BASE : ℚ) := by positivity
    nlinarith

/-- Neither scoring component reads the level's difficulty. -/
theorem progress_score_of_difficulty (state : GameState) (level : Level) (d : Difficulty) :
    progress_score_of state { level with difficulty := d } = progress_score_of state level := rfl

/-- The efficiency score does not read the level's difficulty either. -/
theorem efficiency_score_of_difficulty (state : GameState) (level : Level) (d : Difficulty) :
    efficiency_score_of state { level with difficulty := d } =
      efficiency_score_of state level := rfl

/-- The standard score is monotone in the difficulty multiplier, all other
inputs equal. -/
theorem StandardScore.calculate_mono_mult (state : GameState) (level : Level)
    (d1 d2 : Difficulty) (h : d1.multiplier ≤ d2.multiplier) :
    StandardScore.calculate state { level with difficulty := d1 } ≤
      StandardScore.calculate state { level with difficulty := d2 } := by
  rw [StandardScore.calculate_eq, StandardScore.calculate_eq]
  simp only [progress_score_of_difficulty, efficiency_score_of_difficulty]
  split
  · exact le_refl _
  · have h1 := progress_score_of_nonneg state level
    have h2 := efficiency_score_of_nonneg state level
    have h1q : (0 : ℚ) ≤ (progress_score_of state level : ℚ) := by exact_mod_cast h1
    have h2q : (0 : ℚ) ≤ (efficiency_score_of state level : ℚ) := by exact_mod_cast h2
    apply pyInt_mono
    · have : (0 : ℚ) ≤ (StandardScore.WIN_BASE : ℚ) := by positivity
      nlinarith [d1.multiplier_nonneg]
    · have := mul_le_mul_of_nonneg_left h h2q
      linarith

/-- When the overage penalty cannot apply, the penalized strategy returns the
standard score unchanged. -/
theorem MaxMovesScore.calculate_eq_standard (state : GameState) (level : Level)
    (h : state.status ≠ GameStatus.COMPLETED ∨ pyFalsyOptNat level.optimal_moves = true ∨
      state.move_count ≤ level.optimal_moves.getD 0) :
    MaxMovesScore.calculate state level = StandardScore.calculate state level := by
  unfold MaxMovesScore.calculate
  rcases h with h | h | h
  · simp [h]
  · simp [h]
  · simp only [h, ite_true, if_true]
    split
    · rfl
    · split
      · rfl
      · simp [h]

/-- Closed form of the progress score: `floor(500 * collected / required)`,
and 0 when no items are required. -/
theorem progress_score_of_eq (state : GameState) (level : Level) :
    progress_score_of state level =
      if level.rules.required_items.card = 0 then 0
      else ⌊(500 : ℚ) * (state.collected_items.card : ℚ) /
        (level.rules.required_items.card : ℚ)⌋ := by
  unfold progress_score_of
  by_cases h0 : level.rules.required_items.card = 0
  · rw [if_pos h0, if_neg (by simpa using h0)]
    norm_num [pyInt, StandardScore.MAX_PROGRESS_SCORE]
  · rw [if_neg h0, if_pos h0]
    rw [pyInt_eq_floor _ (by positivity)]
    rw [StandardScore.MAX_PROGRESS_SCORE]
    push_cast
    rw [mul_div_assoc]

/-- C1 counterexample: with status `game_over`, two collected items of which
only one is required, the code scores `int(500 * 2/1) = 1000`, not the
claim's `floor(500 * 1/1) = 500` — the code counts all collected items, not
only those in the required set. -/
theorem claim_C1_counterexample :
    StandardScore.calculate (scoreState .GAME_OVER 3 {"Amulet", "Lantern"})
        (scoreLevel {"Amulet"} (some 2) .EASY) ≠
      claimC1Score (scoreState .GAME_OVER 3 {"Amulet", "Lantern"})
        (scoreLevel {"Amulet"} (some 2) .EASY) := by
  have h1 : StandardScore.calculate (scoreState .GAME_OVER 3 {"Amulet", "Lantern"})
      (scoreLevel {"Amulet"} (some 2) .EASY) = 1000 := by
    rw [StandardScore.calculate_eq, if_pos (by decide), progress_score_of_eq]
    have hc : (({"Amulet", "Lantern"} : Finset String)).card = 2 := by decide
    have hr : (({"Amulet"} : Finset String)).card = 1 := by decide
    simp only [scoreState, scoreLevel, hc, hr]
    norm_num
  have h2 : claimC1Score (scoreState .GAME_OVER 3 {"Amulet", "Lantern"})
      (scoreLevel {"Amulet"} (some 2) .EASY) = 500 := by
    unfold claimC1Score
    have hi : (({"Amulet", "Lantern"} : Finset String) ∩ {"Amulet"}).card = 1 := by decide
    have hr : (({"Amulet"} : Finset String)).card = 1 := by decide
    simp only [scoreState, scoreLevel, hi, hr]
    norm_num
  rw [h1, h2]
  decide

/-- C1 (amended): for every non-completed state the strategy returns exactly
the progress score — no win bonus, no efficiency term — where progress
divides the number of *all* collected items (not only required ones) by the
size of the required-item set (0 if the level has no required items); a state
with 5 of 6 required relics collected (and nothing else) and status
`game_over` still scores `floor(500 * 5/6) = 416`. -/
theorem claim_C1_amended (state : GameState) (level : Level)
    (h : state.status ≠ GameStatus.COMPLETED) :
    StandardScore.calculate state level =
      if level.rules.required_items.card = 0 then 0
      else ⌊(500 : ℚ) * (state.collected_items.card : ℚ) /
        (level.rules.required_items.card : ℚ)⌋ := by
  rw [StandardScore.calculate_eq, if_pos h, progress_score_of_eq]

/-- C1 witness: the 5-of-6 `game_over` scenario evaluates to 416. -/
theorem claim_C1_witness :
    StandardScore.calculate
        (scoreState .GAME_OVER 9 {"Blue", "Yellow", "Red", "Purple", "Green"})
        (scoreLevel {"Blue", "Yellow", "Red", "Purple", "Green", "Orange"} (some 7) .EASY)
      = 416 := by
  rw [claim_C1_amended _ _ (by decide)]
  have hc : (({"Blue", "Yellow", "Red", "Purple", "Green"} : Finset String)).card = 5 := by
    decide
  have hr : (({"Blue", "Yellow", "Red", "Purple", "Green", "Orange"} :
      Finset String)).card = 6 := by decide
  simp only [scoreState, scoreLevel, hc, hr]
  norm_num

/-- Closed form of the efficiency score as a floor. -/
theorem efficiency_score_of_eq (state : GameState) (level : Level) :
    efficiency_score_of state level = ⌊(1000 : ℚ) * efficiency_of state level⌋ := by
  unfold efficiency_score_of
  rw [pyInt_eq_floor _ (by have := efficiency_of_nonneg state level; positivity)]
  norm_num [StandardScore.MAX_EFFICIENCY_SCORE]

/-- Closed form of the completed-state standard score as a floor. -/
theorem StandardScore.calculate_completed (state : GameState) (level : Level)
    (h : state.status = GameStatus.COMPLETED) :
    StandardScore.calculate state level =
      ⌊(1000 : ℚ) + (progress_score_of state level : ℚ)
        + (efficiency_score_of state level : ℚ) * level.difficulty.multiplier⌋ := by
  rw [StandardScore.calculate_eq, if_neg (by simp [h])]
  rw [pyInt_eq_floor _ ?_]
  · norm_num [StandardScore.WIN_BASE]
  · have h1 := progress_score_of_nonneg state level
    have h2 := efficiency_score_of_nonneg state level
    have h3 := level.difficulty.multiplier_nonneg
    have h1q : (0 : ℚ) ≤ (progress_score_of state level : ℚ) := by exact_mod_cast h1
    have h2q : (0 : ℚ) ≤ (efficiency_score_of state level : ℚ) := by exact_mod_cast h2
    have : (0 : ℚ) ≤ (StandardScore.WIN_BASE : ℚ) := by positivity
    nlinarith

/-- C2 counterexample: a completed run with one move of overage (2 moves,
optimum 1, nothing required). Medium scores `floor(1000 + 0 + 500*1.0) = 1500`
while hard — whose resolved strategy is the penalized `MaxMovesScore` —
scores `1625 - 812 = 813 < 1500`, so the claimed chain fails even though the
multipliers 0.75/1.0/1.25 are monotone. -/
theorem claim_C2_counterexample :
    ¬ (scoreWithDifficulty (scoreState .COMPLETED 2 ∅) (scoreLevel ∅ (some 1) .MEDIUM)
          .MEDIUM ≤
        scoreWithDifficulty (scoreState .COMPLETED 2 ∅) (scoreLevel ∅ (some 1) .MEDIUM)
          .HARD) := by
  have heff : efficiency_of (scoreState .COMPLETED 2 ∅) (scoreLevel ∅ (some 1) .MEDIUM) =
      1 / 2 := by
    unfold efficiency_of
    norm_num [scoreState, scoreLevel, pyFalsyOptNat]
  have hprog : ∀ d : Difficulty,
      progress_score_of (scoreState .COMPLETED 2 ∅) (scoreLevel ∅ (some 1) d) = 0 := by
    intro d
    rw [progress_score_of_eq]
    norm_num [scoreState, scoreLevel]
  have hes : efficiency_score_of (scoreState .COMPLETED 2 ∅) (scoreLevel ∅ (some 1) .MEDIUM) =
      500 := by
    rw [efficiency_score_of_eq, heff]
    norm_num
  have hm : scoreWithDifficulty (scoreState .COMPLETED 2 ∅) (scoreLevel ∅ (some 1) .MEDIUM)
      .MEDIUM = 1500 := by
    show StandardScore.calculate (scoreState .COMPLETED 2 ∅) (scoreLevel ∅ (some 1) .MEDIUM)
      = 1500
    rw [StandardScore.calculate_completed _ _ (by decide), hprog, hes]
    norm_num [scoreLevel, Difficulty.multiplier]
  have hbase : StandardScore.calculate (scoreState .COMPLETED 2 ∅)
      (scoreLevel ∅ (some 1) .HARD) = 1625 := by
    rw [StandardScore.calculate_completed _ _ (by decide), hprog]
    have : efficiency_score_of (scoreState .COMPLETED 2 ∅) (scoreLevel ∅ (some 1) .HARD) =
        500 := by
      rw [efficiency_score_of_eq]
      have : efficiency_of (scoreState .COMPLETED 2 ∅) (scoreLevel ∅ (some 1) .HARD) =
          1 / 2 := by
        unfold efficiency_of
        norm_num [scoreState, scoreLevel, pyFalsyOptNat]
      rw [this]
      norm_num
    rw [this]
    norm_num [scoreLevel, Difficulty.multiplier]
  have hh : scoreWithDifficulty (scoreState .COMPLETED 2 ∅) (scoreLevel ∅ (some 1) .MEDIUM)
      .HARD = 813 := by
    show MaxMovesScore.calculate (scoreState .COMPLETED 2 ∅) (scoreLevel ∅ (some 1) .HARD)
      = 813
    unfold MaxMovesScore.calculate
    rw [if_neg (by decide), if_neg (by decide), if_neg (by decide)]
    have hmc : (scoreState .COMPLETED 2 ∅).move_count = 2 := rfl
    have hom : (scoreLevel ∅ (some 1) .HARD).optimal_moves = some 1 := rfl
    simp only [hmc, hom, hbase, Option.getD_some]
    have hratio : min (((2 - 1 : ℕ) : ℚ) / ((1 : ℕ) : ℚ)) 1.0 = 1 := by norm_num
    rw [hratio, pyInt_eq_floor _ (by norm_num [MaxMovesScore.OVERAGE_PENALTY_FACTOR])]
    norm_num [MaxMovesScore.OVERAGE_PENALTY_FACTOR]
  rw [hm, hh]
  decide

/-- C2 (amended): for two `(state, level)` pairs identical except the level's
difficulty, `score(easy) ≤ score(medium) ≤ score(hard)` holds whenever hard's
overage penalty does not apply — that is, when the state is not completed, or
`optimal_moves` is `None`/0, or `move_count` is within the optimum. (With an
overage the penalized hard strategy can drop below medium; see the
counterexample.) -/
theorem claim_C2_amended (state : GameState) (level : Level)
    (h : state.status ≠ GameStatus.COMPLETED ∨ pyFalsyOptNat level.optimal_moves = true ∨
      state.move_count ≤ level.optimal_moves.getD 0) :
    scoreWithDifficulty state level .EASY ≤ scoreWithDifficulty state level .MEDIUM ∧
      scoreWithDifficulty state level .MEDIUM ≤ scoreWithDifficulty state level .HARD := by
  constructor
  · show StandardScore.calculate state { level with difficulty := .EASY } ≤
      StandardScore.calculate state { level with difficulty := .MEDIUM }
    exact StandardScore.calculate_mono_mult state level .EASY .MEDIUM
      (by norm_num [Difficulty.multiplier])
  · show StandardScore.calculate state { level with difficulty := .MEDIUM } ≤
      MaxMovesScore.calculate state { level with difficulty := .HARD }
    rw [MaxMovesScore.calculate_eq_standard state { level with difficulty := .HARD } h]
    exact StandardScore.calculate_mono_mult state level .MEDIUM .HARD
      (by norm_num [Difficulty.multiplier])

/-- C2 witness: the amended chain at a concrete in-progress state. -/
theorem claim_C2_witness :
    scoreWithDifficulty (scoreState .IN_PROGRESS 2 ∅) (scoreLevel ∅ (some 1) .MEDIUM) .EASY ≤
        scoreWithDifficulty (scoreState .IN_PROGRESS 2 ∅) (scoreLevel ∅ (some 1) .MEDIUM)
          .MEDIUM ∧
      scoreWithDifficulty (scoreState .IN_PROGRESS 2 ∅) (scoreLevel ∅ (some 1) .MEDIUM)
          .MEDIUM ≤
        scoreWithDifficulty (scoreState .IN_PROGRESS 2 ∅) (scoreLevel ∅ (some 1) .MEDIUM)
          .HARD :=
  claim_C2_amended (scoreState .IN_PROGRESS 2 ∅) (scoreLevel ∅ (some 1) .MEDIUM)
    (Or.inl (by decide))

/-- C4 counterexample: a completed run on a level whose computed optimum is 0
(defined, not `None`) with one move taken. The claim's formula gives
`efficiency = min(0/1, 1) = 0` and a score of 1000, but the code's falsy test
(`if not level.optimal_moves`) treats the 0 as undefined and awards the full
efficiency bonus: score 2000. -/
theorem claim_C4_counterexample :
    StandardScore.calculate (scoreState .COMPLETED 1 ∅) (scoreLevel ∅ (some 0) .MEDIUM) ≠
      claimC4Score (scoreState .COMPLETED 1 ∅) (scoreLevel ∅ (some 0) .MEDIUM) := by
  have h1 : StandardScore.calculate (scoreState .COMPLETED 1 ∅)
      (scoreLevel ∅ (some 0) .MEDIUM) = 2000 := by
    rw [StandardScore.calculate_completed _ _ (by decide), progress_score_of_eq,
      efficiency_score_of_eq]
    have he : efficiency_of (scoreState .COMPLETED 1 ∅) (scoreLevel ∅ (some 0) .MEDIUM) =
        1.0 := by
      unfold efficiency_of
      norm_num [scoreState, scoreLevel, pyFalsyOptNat]
    rw [he]
    norm_num [scoreState, scoreLevel, Difficulty.multiplier]
  have h2 : claimC4Score (scoreState .COMPLETED 1 ∅) (scoreLevel ∅ (some 0) .MEDIUM) =
      1000 := by
    unfold claimC4Score
    rw [progress_score_of_eq]
    have hmin : min (((some 0 : Option ℕ).getD 0 : ℚ) /
        ((scoreState .COMPLETED 1 ∅).move_count : ℚ)) 1.0 = 0 := by
      norm_num [scoreState]
    norm_num [scoreState, scoreLevel, Difficulty.multiplier, hmin]
  rw [h1, h2]
  decide

/-- C4 (amended): for every completed state,
`calculate = floor(1000 + progress_score + floor(1000 * efficiency) * multiplier)`
with `efficiency = min(optimal_moves / move_count, 1.0)` whenever
`optimal_moves` is defined *and non-zero* and `move_count > 0`, and
`efficiency = 1.0` otherwise (the safe default also swallows a zero optimum);
the computation is total and never divides by zero. -/
theorem claim_C4_amended (state : GameState) (level : Level)
    (h : state.status = GameStatus.COMPLETED) :
    StandardScore.calculate state level =
      ⌊(1000 : ℚ) + (progress_score_of state level : ℚ) +
        ((⌊(1000 : ℚ) * (if level.optimal_moves.getD 0 ≠ 0 ∧ 0 < state.move_count
            then min ((level.optimal_moves.getD 0 : ℚ) / (state.move_count : ℚ)) 1.0
            else 1.0)⌋ : ℚ)) * level.difficulty.multiplier⌋ := by
  rw [StandardScore.calculate_completed _ _ h, efficiency_score_of_eq]
  have he : efficiency_of state level =
      (if level.optimal_moves.getD 0 ≠ 0 ∧ 0 < state.move_count
        then min ((level.optimal_moves.getD 0 : ℚ) / (state.move_count : ℚ)) 1.0
        else 1.0) := by
    unfold efficiency_of
    cases hom : level.optimal_moves with
    | none => simp [pyFalsyOptNat]
    | some k =>
      cases k with
      | zero => simp [pyFalsyOptNat]
      | succ n =>
        by_cases hmc : state.move_count = 0
        · simp [pyFalsyOptNat, hmc]
        · simp [pyFalsyOptNat, hmc, Nat.pos_of_ne_zero hmc]
  rw [he]

/-- C4 witness: the amended formula at a concrete completed state. -/
theorem claim_C4_witness :
    StandardScore.calculate (scoreState .COMPLETED 10 {"A"})
        (scoreLevel {"A", "B"} (some 5) .HARD) =
      ⌊(1000 : ℚ) + (progress_score_of (scoreState .COMPLETED 10 {"A"})
          (scoreLevel {"A", "B"} (some 5) .HARD) : ℚ) +
        ((⌊(1000 : ℚ) *
            (if (scoreLevel {"A", "B"} (some 5) .HARD).optimal_moves.getD 0 ≠ 0 ∧
                0 < (scoreState .COMPLETED 10 {"A"}).move_count
              then min (((scoreLevel {"A", "B"} (some 5) .HARD).optimal_moves.getD 0 : ℚ) /
                ((scoreState .COMPLETED 10 {"A"}).move_count : ℚ)) 1.0
              else 1.0)⌋ : ℚ)) *
          (scoreLevel {"A", "B"} (some 5) .HARD).difficulty.multiplier⌋ :=
  claim_C4_amended (scoreState .COMPLETED 10 {"A"}) (scoreLevel {"A", "B"} (some 5) .HARD)
    (by decide)

/-- C5 (confirmed): the penalized variant equals the claim's case split: the
standard score as base; when completed with a defined optimum exceeded by
`move_count`, subtract `floor(base * min(overage/optimal, 1) * 0.5)` floored
at 0; otherwise the base unchanged. (At a defined optimum of 0 the two sides
agree because the claim's ratio is a division by zero, which the rational
semantics evaluates to 0 — no penalty, matching the code's falsy early
return.) -/
theorem claim_C5 (state : GameState) (level : Level) :
    MaxMovesScore.calculate state level = claimC5Score state level := by
  unfold MaxMovesScore.calculate claimC5Score
  by_cases hs : state.status = GameStatus.COMPLETED
  · simp only [hs, ne_eq, not_true_eq_false, if_false, true_and, ite_not]
    cases hom : level.optimal_moves with
    | none => simp [pyFalsyOptNat]
    | some k =>
      cases k with
      | zero =>
        by_cases hmc : 0 < state.move_count
        · simp only [pyFalsyOptNat, Option.getD_some, hmc, Option.isSome_some, true_and,
            if_true, if_pos hmc]
          rw [Nat.cast_zero, div_zero]
          norm_num
          exact StandardScore.calculate_nonneg state level
        · simp [pyFalsyOptNat, hmc]
      | succ n =>
        by_cases hmc : state.move_count ≤ n + 1
        · simp [pyFalsyOptNat, hmc, Nat.not_lt.2 hmc]
        · have hlt : n + 1 < state.move_count := Nat.not_le.1 hmc
          simp only [pyFalsyOptNat, Bool.false_eq_true, if_false, hmc, Option.getD_some,
            Option.isSome_some, true_and, hlt, if_true, if_neg hmc]
          have hb := StandardScore.calculate_nonneg state level
          have hbq : (0 : ℚ) ≤ (StandardScore.calculate state level : ℚ) := by
            exact_mod_cast hb
          have hr : (0 : ℚ) ≤ min (((state.move_count - (n + 1) : ℕ) : ℚ) /
              (((n + 1) : ℕ) : ℚ)) 1.0 := le_min (by positivity) (by norm_num)
          have hf : (0 : ℚ) ≤ MaxMovesScore.OVERAGE_PENALTY_FACTOR := by
            norm_num [MaxMovesScore.OVERAGE_PENALTY_FACTOR]
          rw [pyInt_eq_floor _ (mul_nonneg (mul_nonneg hbq hr) hf)]
          rfl
  · simp [hs]

/-- C10 (confirmed): with a completed state and a *defined* optimum of 0,
`StandardScore` behaves exactly as if the optimum were undefined — the full
efficiency bonus `floor(1000 * 1.0) = 1000` is awarded rather than
`min(0/move_count, 1) = 0` — and `MaxMovesScore` applies no overage penalty
regardless of `move_count`. -/
theorem claim_C10 (state : GameState) (level : Level)
    (h1 : state.status = GameStatus.COMPLETED) (h2 : level.optimal_moves = some 0) :
    StandardScore.calculate state level =
        StandardScore.calculate state { level with optimal_moves := none } ∧
      StandardScore.calculate state level =
        pyInt ((StandardScore.WIN_BASE : ℚ) + (progress_score_of state level : ℚ) +
          (1000 : ℚ) * level.difficulty.multiplier) ∧
      MaxMovesScore.calculate state level = StandardScore.calculate state level := by
  have heff : efficiency_of state level = 1.0 := by
    unfold efficiency_of
    simp [h2, pyFalsyOptNat]
  have heff' : efficiency_of state { level with optimal_moves := none } = 1.0 := by
    unfold efficiency_of
    simp [pyFalsyOptNat]
  have hes : efficiency_score_of state level = 1000 := by
    rw [efficiency_score_of_eq, heff]
    norm_num
  have hes' : efficiency_score_of state { level with optimal_moves := none } = 1000 := by
    rw [efficiency_score_of_eq, heff']
    norm_num
  refine ⟨?_, ?_, ?_⟩
  · rw [StandardScore.calculate_completed _ _ h1, StandardScore.calculate_completed _ _ h1,
      hes, hes']
    rfl
  · rw [StandardScore.calculate_eq, if_neg (by simp [h1]), hes]
    norm_num
  · exact MaxMovesScore.calculate_eq_standard state level (Or.inr (Or.inl (by simp [h2, pyFalsyOptNat])))

/-- C10 witness: the three equalities at a concrete completed state with a
zero optimum. -/
theorem claim_C10_witness :
    StandardScore.calculate (scoreState .COMPLETED 5 ∅) (scoreLevel ∅ (some 0) .EASY) =
        StandardScore.calculate (scoreState .COMPLETED 5 ∅)
          { scoreLevel ∅ (some 0) .EASY with optimal_moves := none } ∧
      StandardScore.calculate (scoreState .COMPLETED 5 ∅) (scoreLevel ∅ (some 0) .EASY) =
        pyInt ((StandardScore.WIN_BASE : ℚ) +
          (progress_score_of (scoreState .COMPLETED 5 ∅) (scoreLevel ∅ (some 0) .EASY) : ℚ) +
          (1000 : ℚ) * (scoreLevel ∅ (some 0) .EASY).difficulty.multiplier) ∧
      MaxMovesScore.calculate (scoreState .COMPLETED 5 ∅) (scoreLevel ∅ (some 0) .EASY) =
        StandardScore.calculate (scoreState .COMPLETED 5 ∅) (scoreLevel ∅ (some 0) .EASY) :=
  claim_C10 (scoreState .COMPLETED 5 ∅) (scoreLevel ∅ (some 0) .EASY) (by decide) (by decide)

/-- Item behavior never changes the player, the visit set, the move count or
the status. -/
theorem Item.on_enter_frame (it : Item) (state : GameState) :
    (it.on_enter state).player = state.player ∧
      (it.on_enter state).visited_rooms = state.visited_rooms ∧
      (it.on_enter state).move_count = state.move_count ∧
      (it.on_enter state).status = state.status := by
  cases it <;> simp only [Item.on_enter] <;> split <;> simp

/-- The villain's entry hook never changes the collected set. -/
theorem Item.on_enter_villain_collected (n : String) (state : GameState) :
    ((Item.villain n).on_enter state).collected_items = state.collected_items := by
  simp only [Item.on_enter]
  split <;> rfl

/-- Rules evaluation never changes the player, the visit set, the collected
set or the move count. -/
theorem StandardRules.check_frame (rules : StandardRules) (state : GameState) (room : Room) :
    ((rules.check state room).player = state.player ∧
      (rules.check state room).visited_rooms = state.visited_rooms ∧
      (rules.check state room).collected_items = state.collected_items ∧
      (rules.check state room).move_count = state.move_count) := by
  unfold StandardRules.check
  split
  · split <;> simp
  · simp

/-- Rules evaluation in a room without the villain never changes the status. -/
theorem StandardRules.check_status_no_villain (rules : StandardRules) (state : GameState)
    (room : Room) (h : roomIsVillain room = false) :
    (rules.check state room).status = state.status := by
  unfold StandardRules.check
  unfold roomIsVillain at h
  split
  · rename_i heq
    rw [heq] at h
    simp [Item.render_key] at h
  · rfl

/-- C6 (confirmed): a move from a non-terminal state whose destination exists
and holds the villain sets status `completed` with the win message when
`collected_items ⊇ required_items`, and `game_over` with the loss message
otherwise; a move to any destination not holding the villain never changes
the status. -/
theorem claim_C6 (level : Level) (state : GameState) (direction dest : String)
    (h1 : state.status.is_terminal = false)
    (h2 : List.lookup direction (level.map.roomOf state.player.location).exits = some dest) :
    (roomIsVillain (level.map.roomOf dest) = true →
      (level.rules.required_items ⊆ state.collected_items →
        (GameController.move level state direction).status = GameStatus.COMPLETED ∧
          (GameController.move level state direction).message =
            some "You defeated the villain!") ∧
      (¬ level.rules.required_items ⊆ state.collected_items →
        (GameController.move level state direction).status = GameStatus.GAME_OVER ∧
          (GameController.move level state direction).message =
            some "You found the villain too soon.")) ∧
    (roomIsVillain (level.map.roomOf dest) = false →
      (GameController.move level state direction).status = state.status) := by
  constructor
  · intro hv
    obtain ⟨n, hitem⟩ : ∃ n, (level.map.roomOf dest).item = some (.villain n) := by
      unfold roomIsVillain at hv
      cases hitem : (level.map.roomOf dest).item with
      | none => rw [hitem] at hv; simp at hv
      | some it =>
        cases it with
        | relic m => rw [hitem] at hv; simp [Item.render_key] at hv
        | villain m => exact ⟨m, rfl⟩
    unfold GameController.move
    simp only [h1, Bool.false_eq_true, if_false, h2]
    unfold StandardRules.check
    simp only [hitem, Item.on_enter_villain_collected, GameState.visit]
    constructor
    · intro hsub
      rw [if_pos hsub]
      exact ⟨rfl, rfl⟩
    · intro hsub
      rw [if_neg hsub]
      exact ⟨rfl, rfl⟩
  · intro hv
    unfold GameController.move
    simp only [h1, Bool.false_eq_true, if_false, h2]
    rw [StandardRules.check_status_no_villain _ _ _ hv]
    cases hitem : (level.map.roomOf dest).item with
    | none => simp [GameState.visit]
    | some it =>
      simp only [hitem]
      rw [(it.on_enter_frame _).2.2.2]
      simp [GameState.visit]

/-- C7 (confirmed): on a terminal state, `move()` only sets the informational
message; every other field — location, move count, status, visit set,
inventory, event log, timestamps, villain flag — is left unchanged. -/
theorem claim_C7 (level : Level) (state : GameState) (direction : String)
    (h : state.status.is_terminal = true) :
    GameController.move level state direction =
      { state with message := some "Game already ended." } := by
  unfold GameController.move
  simp [h]

/-- C8 (confirmed): a blocked move (no exit in the requested direction) from a
non-terminal state increments `move_count` by exactly 1, appends the
"Bumped into a wall" event, sets the wall message, and changes nothing else —
in particular `player.location` is unchanged. -/
theorem claim_C8 (level : Level) (state : GameState) (direction : String)
    (h1 : state.status.is_terminal = false)
    (h2 : List.lookup direction (level.map.roomOf state.player.location).exits = none) :
    GameController.move level state direction =
      { state with
          move_count := state.move_count + 1
          message := some "You bumped into a wall."
          event_log := state.event_log ++ ["Bumped into a wall"] } := by
  unfold GameController.move
  simp [h1, h2]

/-- C6 witness: moving east from the demo hall into the villain's lair
without the required gem. -/
theorem claim_C6_witness :
    (roomIsVillain (demoLevel.map.roomOf "Lair") = true →
      (demoLevel.rules.required_items ⊆
          (GameState.start "demo" "Hall" "2026-01-01T00:00:00+00:00").collected_items →
        (GameController.move demoLevel (GameState.start "demo" "Hall" "2026-01-01T00:00:00+00:00")
            "east").status = GameStatus.COMPLETED ∧
          (GameController.move demoLevel
            (GameState.start "demo" "Hall" "2026-01-01T00:00:00+00:00") "east").message =
            some "You defeated the villain!") ∧
      (¬ demoLevel.rules.required_items ⊆
          (GameState.start "demo" "Hall" "2026-01-01T00:00:00+00:00").collected_items →
        (GameController.move demoLevel (GameState.start "demo" "Hall" "2026-01-01T00:00:00+00:00")
            "east").status = GameStatus.GAME_OVER ∧
          (GameController.move demoLevel
            (GameState.start "demo" "Hall" "2026-01-01T00:00:00+00:00") "east").message =
            some "You found the villain too soon.")) ∧
    (roomIsVillain (demoLevel.map.roomOf "Lair") = false →
      (GameController.move demoLevel (GameState.start "demo" "Hall" "2026-01-01T00:00:00+00:00")
          "east").status =
        (GameState.start "demo" "Hall" "2026-01-01T00:00:00+00:00").status) :=
  claim_C6 demoLevel (GameState.start "demo" "Hall" "2026-01-01T00:00:00+00:00") "east" "Lair"
    (by decide) (by decide)

/-- C7 witness: a move on a completed state only sets the message. -/
theorem claim_C7_witness :
    GameController.move demoLevel (scoreState .COMPLETED 3 ∅) "east" =
      { scoreState .COMPLETED 3 ∅ with message := some "Game already ended." } :=
  claim_C7 demoLevel (scoreState .COMPLETED 3 ∅) "east" (by decide)

/-- C8 witness: bumping north into a wall from the demo hall. -/
theorem claim_C8_witness :
    GameController.move demoLevel (GameState.start "demo" "Hall" "2026-01-01T00:00:00+00:00")
        "north" =
      { GameState.start "demo" "Hall" "2026-01-01T00:00:00+00:00" with
          move_count := (GameState.start "demo" "Hall" "2026-01-01T00:00:00+00:00").move_count + 1
          message := some "You bumped into a wall."
          event_log := (GameState.start "demo" "Hall" "2026-01-01T00:00:00+00:00").event_log ++
            ["Bumped into a wall"] } :=
  claim_C8 demoLevel (GameState.start "demo" "Hall" "2026-01-01T00:00:00+00:00") "north"
    (by decide) (by decide)

/-- Item behavior and rules never move the player or shrink the visit set, so
a move preserves the invariant that the current location is visited. -/
theorem GameController.move_loc_mem (level : Level) (state : GameState) (direction : String)
    (h : state.player.location ∈ state.visited_rooms) :
    (GameController.move level state direction).player.location ∈
      (GameController.move level state direction).visited_rooms := by
  unfold GameController.move
  by_cases ht : state.status.is_terminal
  · simp [ht, h]
  · simp only [ht, Bool.false_eq_true, if_false]
    cases hl : List.lookup direction (level.map.roomOf state.player.location).exits with
    | none => simpa using h
    | some dest =>
      simp only []
      obtain ⟨hp, hvis, -, -⟩ := StandardRules.check_frame level.rules _ (level.map.roomOf dest)
      rw [hp, hvis]
      cases hitem : (level.map.roomOf dest).item with
      | none => simp [GameState.visit]
      | some it =>
        simp only []
        obtain ⟨hp2, hvis2, -, -⟩ := it.on_enter_frame _
        rw [hp2, hvis2]
        simp [GameState.visit]

/-- Any reachable state keeps its location inside its visit set. -/
theorem ReachableState.loc_mem (level : Level) (state : GameState)
    (h : ReachableState level state) :
    state.player.location ∈ state.visited_rooms := by
  obtain ⟨t, dirs, rfl⟩ := h
  have base : (GameState.start level.id level.start_room t).player.location ∈
      (GameState.start level.id level.start_room t).visited_rooms := by
    simp [GameState.start]
  generalize GameState.start level.id level.start_room t = s at base ⊢
  induction dirs generalizing s with
  | nil => exact base
  | cons d ds ih =>
    exact ih _ (GameController.move_loc_mem level s d base)

/-- The serialization round-trip is exact on every state whose location is
already in its visit set. -/
theorem roundtrip_of_mem (state : GameState)
    (h : state.player.location ∈ state.visited_rooms) :
    gamestate_from_dict (gamestate_to_dict state) = some state := by
  unfold gamestate_to_dict gamestate_from_dict
  have hv : GameStatus.ofValue state.status.value = some state.status := by
    cases state.status <;> rfl
  simp only [hv]
  obtain ⟨lid, ⟨loc⟩, vis, coll, mc, stat, msg, log, sa, ua, ev⟩ := state
  simp only at h ⊢
  rw [Finset.sort_toFinset, Finset.sort_toFinset, Finset.insert_eq_self.2 h]

/-- C9 (confirmed): for every reachable session state, deserializing its
serialized form restores a state equal on every field, and deserialization
always re-asserts the current location into `visited_rooms`. -/
theorem claim_C9 (level : Level) (state : GameState) (h : ReachableState level state) :
    gamestate_from_dict (gamestate_to_dict state) = some state ∧
      ∀ (d : GameStateDict) (state2 : GameState),
        gamestate_from_dict d = some state2 →
          state2.player.location ∈ state2.visited_rooms := by
  constructor
  · exact roundtrip_of_mem state (ReachableState.loc_mem level state h)
  · intro d state2 hd
    unfold gamestate_from_dict at hd
    cases hs : GameStatus.ofValue d.status with
    | none => rw [hs] at hd; exact absurd hd (by simp)
    | some s =>
      rw [hs] at hd
      simp only [Option.some.injEq] at hd
      rw [← hd]
      exact Finset.mem_insert_self _ _

/-- C9 witness: the round-trip at the freshly started demo session, reachable
by the empty move sequence. -/
theorem claim_C9_witness :
    gamestate_from_dict (gamestate_to_dict
        (GameState.start demoLevel.id demoLevel.start_room "2026-01-01T00:00:00+00:00")) =
      some (GameState.start demoLevel.id demoLevel.start_room "2026-01-01T00:00:00+00:00") ∧
      ∀ (d : GameStateDict) (state2 : GameState),
        gamestate_from_dict d = some state2 →
          state2.player.location ∈ state2.visited_rooms :=
  claim_C9 demoLevel (GameState.start demoLevel.id demoLevel.start_room
    "2026-01-01T00:00:00+00:00") ⟨"2026-01-01T00:00:00+00:00", [], rfl⟩

/-- A successful association-list lookup returns a present pair. -/
theorem lookup_mem_of_eq_some {β : Type} {l : List (String × β)} {k : String} {v : β}
    (h : List.lookup k l = some v) : (k, v) ∈ l := by
  induction l with
  | nil => simp [List.lookup] at h
  | cons p rest ih =>
    rw [List.lookup] at h
    by_cases hk : (k == p.1) = true
    · simp only [hk] at h
      obtain rfl := Option.some.inj h
      have hkp : k = p.1 := eq_of_beq hk
      subst hkp
      exact List.mem_cons.2 (Or.inl rfl)
    · rw [Bool.not_eq_true] at hk
      simp only [hk] at h
      exact List.mem_cons_of_mem _ (ih h)

/-- Every member of a list of naturals is bounded by its `foldr max 0`. -/
theorem le_foldr_max {l : List ℕ} {x : ℕ} (h : x ∈ l) : x ≤ l.foldr max 0 := by
  induction l with
  | nil => cases h
  | cons y rest ih =>
    rcases List.mem_cons.1 h with rfl | h'
    · exact le_max_left _ _
    · exact (ih h').trans (le_max_right _ _)

/-- The looked-up room of any name is either present in the room list or the
empty default. -/
theorem MapGraph.roomOf_mem_or_default (g : MapGraph) (name : String) :
    (name, g.roomOf name) ∈ g.rooms ∨
      g.roomOf name = { name := name, exits := [], item := none } := by
  unfold MapGraph.roomOf
  cases h : List.lookup name g.rooms with
  | none => right; rfl
  | some r => left; exact lookup_mem_of_eq_some h

/-- Out-degrees are bounded by `maxExitCount`. -/
theorem MapGraph.neighbors_length_le (g : MapGraph) (name : String) :
    (g.neighbors name).length ≤ maxExitCount g := by
  unfold MapGraph.neighbors
  rcases g.roomOf_mem_or_default name with h | h
  · exact le_foldr_max (List.mem_map.2 ⟨(name, g.roomOf name), h, rfl⟩)
  · rw [h]
    exact Nat.zero_le _

/-- Exit closure of the assembled map follows from per-room exit closure. -/
theorem graphClosed_of_rooms (g : MapGraph)
    (h : ∀ rd ∈ g.rooms, ∀ e ∈ rd.2.exits, e.2 ∈ g.roomNames) : GraphClosed g := by
  intro name e he
  rcases g.roomOf_mem_or_default name with hm | hd
  · exact h _ hm e he
  · rw [hd] at he
    cases he

/-- Item pickup stays inside the required universe. -/
theorem pickupItems_subset {required : Finset String} {room : Room} {items : Finset String}
    (h : items ⊆ required) : pickupItems required room items ⊆ required := by
  cases hit : room.item with
  | none =>
    simp only [pickupItems, hit]
    exact h
  | some it =>
    simp only [pickupItems, hit]
    split
    · rename_i hc
      exact Finset.insert_subset hc.1 h
    · exact h

/-- Each state has at most `maxExitCount` successors. -/
theorem bfsSuccs_length_le (g : MapGraph) (required : Finset String) (s : BState) :
    (bfsSuccs g required s).length ≤ maxExitCount g := by
  unfold bfsSuccs
  split
  · exact Nat.zero_le _
  · rw [List.length_map]
    exact g.neighbors_length_le s.1

/-- Successors of a universe state remain in the universe. -/
theorem bfsSuccs_univ {g : MapGraph} {required : Finset String} {s : BState}
    (HW : GraphClosed g) (hs : s.2 ⊆ required) :
    ∀ u ∈ bfsSuccs g required s, u.1 ∈ g.roomNames ∧ u.2 ⊆ required := by
  intro u hu
  unfold bfsSuccs at hu
  split at hu
  · cases hu
  · obtain ⟨e, he, rfl⟩ := List.mem_map.1 hu
    exact ⟨HW s.1 e he, pickupItems_subset hs⟩

/-- The loop measure is at least 1. -/
theorem bfsMeasure_pos (g : MapGraph) (required : Finset String)
    (V : List BState) (Q : List (BState × Nat)) : 1 ≤ bfsMeasure g required V Q := by
  unfold bfsMeasure
  exact Nat.le_add_left 1 _

/-- Consuming the queue head drops the measure by exactly one. -/
theorem bfsMeasure_cons (g : MapGraph) (required : Finset String) (V : List BState)
    (p : BState × Nat) (rest : List (BState × Nat)) :
    bfsMeasure g required V (p :: rest) = bfsMeasure g required V rest + 1 := by
  unfold bfsMeasure
  rw [List.length_cons]
  ring

/-- Visiting a fresh universe state pays for up to `maxExitCount` new queue
entries: the measure still strictly decreases. -/
theorem bfsMeasure_visit_le (g : MapGraph) (required : Finset String) (V : List BState)
    (s : BState) (d : Nat) (rest news : List (BState × Nat))
    (hs : s ∈ stateUniverse g required) (hnv : s ∉ V)
    (hlen : news.length ≤ maxExitCount g) :
    bfsMeasure g required (s :: V) (rest ++ news) + 1 ≤
      bfsMeasure g required V ((s, d) :: rest) := by
  have hmem : s ∈ stateUniverse g required \ V.toFinset :=
    Finset.mem_sdiff.2 ⟨hs, fun hc => hnv (List.mem_toFinset.1 hc)⟩
  have hcard : (stateUniverse g required \ (s :: V).toFinset).card + 1 =
      (stateUniverse g required \ V.toFinset).card := by
    rw [List.toFinset_cons, Finset.sdiff_insert]
    exact Finset.card_erase_add_one hmem
  unfold bfsMeasure
  rw [List.length_append, List.length_cons, ← hcard]
  generalize (stateUniverse g required \ (s :: V).toFinset).card = c
  generalize hK : maxExitCount g = K
  rw [hK] at hlen
  have : (c + 1) * K = c * K + K := by ring
  rw [this]
  omega

/-- Destructing the distance structure at a non-empty queue: the head is at
`D` and the tail keeps the block shape. -/
theorem queue_dists_cons {s : BState} {e : Nat} {rest : List (BState × Nat)} {a b D : Nat}
    (h : ((s, e) :: rest).map Prod.snd = List.replicate a D ++ List.replicate b (D + 1))
    (hab : a = 0 → b = 0) :
    e = D ∧ rest.map Prod.snd = List.replicate (a - 1) D ++ List.replicate b (D + 1) := by
  cases a with
  | zero =>
    rw [hab rfl] at h
    simp at h
  | succ a' =>
    rw [List.replicate_succ, List.map_cons, List.cons_append, List.cons.injEq] at h
    exact ⟨h.1, by simpa using h.2⟩

/-- Appending entries at distance `D + 1` keeps the block shape. -/
theorem queue_dists_append {rest : List (BState × Nat)} (xs : List BState) {a b D : Nat}
    (h : rest.map Prod.snd = List.replicate a D ++ List.replicate b (D + 1)) :
    (rest ++ xs.map (fun u => (u, D + 1))).map Prod.snd =
      List.replicate a D ++ List.replicate (b + xs.length) (D + 1) := by
  rw [List.map_append, h, List.map_map, List.append_assoc, List.replicate_add]
  congr 2
  have : (Prod.snd ∘ fun u : BState => (u, D + 1)) = fun _ => D + 1 := rfl
  rw [this, List.map_const']

/-- Frontier turnover: when every queue distance is `D + 1`, the core
invariant advances to `D + 1`. -/
theorem BfsCore.renorm {g : MapGraph} {required : Finset String} {s₀ : BState}
    {V : List BState} {Q : List (BState × Nat)} {D : Nat}
    (core : BfsCore g required s₀ V Q D) (hall : ∀ p ∈ Q, p.2 = D + 1) :
    BfsCore g required s₀ V Q (D + 1) := by
  have hvisited : ∀ m ≤ D, ∀ u, BfsReach g required s₀ m u → u ∈ V := by
    intro m hm u hr
    rcases core.covered m hm u hr with h | ⟨e, he, hq⟩
    · exact h
    · have := hall (u, e) hq
      omega
  refine ⟨core.soundQ, ?_, ?_, core.closure, core.noGoalV⟩
  · intro m hm u hr
    rcases Nat.lt_succ_iff_lt_or_eq.1 hm with hlt | rfl
    · exact core.noGoalBelow m hlt u hr
    · exact core.noGoalV u (hvisited m le_rfl u hr)
  · intro m hm u hr
    by_cases hm' : m ≤ D
    · exact Or.inl (hvisited m hm' u hr)
    · have hmeq : m = D + 1 := by omega
      subst hmeq
      cases hr with
      | step hr' hsucc =>
        have ht := hvisited D le_rfl _ hr'
        rcases core.closure _ ht _ hsucc with h | ⟨e, hq⟩
        · exact Or.inl h
        · exact Or.inr ⟨e, le_of_eq (hall (_, e) hq), hq⟩

/-- Re-establish a normalized distance block after a step: either the head
block is still non-empty, or the whole queue is the next frontier and the
invariant advances. -/
theorem normalize_step {g : MapGraph} {required : Finset String} {s₀ : BState}
    {V : List BState} {Q : List (BState × Nat)} {D a b : Nat}
    (core : BfsCore g required s₀ V Q D)
    (hd : Q.map Prod.snd = List.replicate a D ++ List.replicate b (D + 1)) :
    ∃ D', BfsCore g required s₀ V Q D' ∧ QueueDists Q D' := by
  by_cases ha : a = 0
  · subst ha
    rw [List.replicate_zero, List.nil_append] at hd
    by_cases hb : b = 0
    · subst hb
      refine ⟨D, core, 0, 0, ?_, fun _ => rfl⟩
      simpa using hd
    · have hall : ∀ p ∈ Q, p.2 = D + 1 := by
        intro p hp
        have : p.2 ∈ Q.map Prod.snd := List.mem_map.2 ⟨p, hp, rfl⟩
        rw [hd] at this
        exact List.eq_of_mem_replicate this
      refine ⟨D + 1, core.renorm hall, b, 0, ?_, fun h => absurd h hb⟩
      rw [List.replicate_zero, List.append_nil, hd]
  · exact ⟨D, core, a, b, hd, fun h => absurd h ha⟩

/-- Dropping an already-visited queue head preserves the core invariant. -/
theorem BfsCore.skip {g : MapGraph} {required : Finset String} {s₀ s : BState}
    {V : List BState} {rest : List (BState × Nat)} {D : Nat}
    (core : BfsCore g required s₀ V ((s, D) :: rest) D) (hmem : s ∈ V) :
    BfsCore g required s₀ V rest D := by
  refine ⟨fun p hp => core.soundQ p (List.mem_cons_of_mem _ hp), core.noGoalBelow, ?_, ?_,
    core.noGoalV⟩
  · intro m hm u hr
    rcases core.covered m hm u hr with h | ⟨e, he, hq⟩
    · exact Or.inl h
    · rcases List.mem_cons.1 hq with heq | htail
      · have hus : u = s := congrArg Prod.fst heq
        exact Or.inl (hus ▸ hmem)
      · exact Or.inr ⟨e, he, htail⟩
  · intro t ht u hu
    rcases core.closure t ht u hu with h | ⟨e, hq⟩
    · exact Or.inl h
    · rcases List.mem_cons.1 hq with heq | htail
      · have hus : u = s := congrArg Prod.fst heq
        exact Or.inl (hus ▸ hmem)
      · exact Or.inr ⟨e, htail⟩

/-- Expanding a fresh, non-goal queue head — marking it visited and enqueuing
its successors at distance `D + 1` — preserves the core invariant. (For a
villain room that is not a win, the successor list is empty, which models the
dead-end `continue`.) -/
theorem BfsCore.expand {g : MapGraph} {required : Finset String} {s₀ s : BState}
    {V : List BState} {rest : List (BState × Nat)} {D : Nat}
    (core : BfsCore g required s₀ V ((s, D) :: rest) D)
    (hnmem : s ∉ V) (hgoal : ¬ bfsGoal g required s) :
    BfsCore g required s₀ (s :: V)
      (rest ++ (bfsSuccs g required s).map (fun u => (u, D + 1))) D := by
  have hheads : BfsReach g required s₀ D s := core.soundQ (s, D) (List.mem_cons_self _ _)
  refine ⟨?_, core.noGoalBelow, ?_, ?_, ?_⟩
  · intro p hp
    rcases List.mem_append.1 hp with h | h
    · exact core.soundQ p (List.mem_cons_of_mem _ h)
    · obtain ⟨u, hu, rfl⟩ := List.mem_map.1 h
      exact BfsReach.step hheads hu
  · intro m hm u hr
    rcases core.covered m hm u hr with h | ⟨e, he, hq⟩
    · exact Or.inl (List.mem_cons_of_mem _ h)
    · rcases List.mem_cons.1 hq with heq | htail
      · have hus : u = s := congrArg Prod.fst heq
        exact Or.inl (hus ▸ List.mem_cons_self _ _)
      · exact Or.inr ⟨e, he, List.mem_append_left _ htail⟩
  · intro t ht u hu
    rcases List.mem_cons.1 ht with rfl | htV
    · exact Or.inr ⟨D + 1, List.mem_append_right _ (List.mem_map.2 ⟨u, hu, rfl⟩)⟩
    · rcases core.closure t htV u hu with h | ⟨e, hq⟩
      · exact Or.inl (List.mem_cons_of_mem _ h)
      · rcases List.mem_cons.1 hq with heq | htail
        · have hus : u = s := congrArg Prod.fst heq
          exact Or.inl (hus ▸ List.mem_cons_self _ _)
        · exact Or.inr ⟨e, List.mem_append_left _ htail⟩
  · intro t ht
    rcases List.mem_cons.1 ht with rfl | htV
    · exact hgoal
    · exact core.noGoalV t htV

/-- With an empty queue, every reachable state has been visited. -/
theorem BfsCore.allVisited {g : MapGraph} {required : Finset String} {s₀ : BState}
    {V : List BState} {D : Nat} (core : BfsCore g required s₀ V [] D) :
    ∀ (m : Nat) (u : BState), BfsReach g required s₀ m u → u ∈ V := by
  intro m
  induction m with
  | zero =>
    intro u hr
    cases hr
    rcases core.covered 0 (Nat.zero_le D) s₀ BfsReach.zero with h | ⟨e, _, hq⟩
    · exact h
    · cases hq
  | succ n ih =>
    intro u hr
    cases hr with
    | step hr' hsucc =>
      rcases core.closure _ (ih _ hr') u hsucc with h | ⟨e, hq⟩
      · exact h
      · cases hq

/-- With an empty queue, no reachable goal exists at any distance. -/
theorem BfsCore.noWin {g : MapGraph} {required : Finset String} {s₀ : BState}
    {V : List BState} {D : Nat} (core : BfsCore g required s₀ V [] D) :
    ∀ m, ¬ WinAt g required s₀ m := by
  rintro m ⟨u, hr, hg⟩
  exact core.noGoalV u (core.allVisited m u hr) hg

/-- Total correctness of the BFS loop: under the invariants and with fuel at
least the measure, the loop either returns the least distance at which a goal
state is reachable, or reports failure exactly when no goal is reachable. -/
theorem bfsLoop_spec (g : MapGraph) (required : Finset String) (s₀ : BState)
    (HW : GraphClosed g) :
    ∀ (fuel : ℕ) (V : List BState) (Q : List (BState × Nat)) (D : ℕ),
      BfsCore g required s₀ V Q D → QueueDists Q D → QUniv g required Q →
      bfsMeasure g required V Q ≤ fuel →
      (∃ d, bfsLoop g required fuel V Q = some (some d) ∧ WinAt g required s₀ d ∧
          ∀ m < d, ¬ WinAt g required s₀ m) ∨
        (bfsLoop g required fuel V Q = some none ∧ ∀ m, ¬ WinAt g required s₀ m) := by
  intro fuel
  induction fuel with
  | zero =>
    intro V Q D _ _ _ hm
    exact absurd (le_trans (bfsMeasure_pos g required V Q) hm) (by norm_num)
  | succ fuel ih =>
    intro V Q D core hdists huniv hm
    cases Q with
    | nil => exact Or.inr ⟨rfl, core.noWin⟩
    | cons p rest =>
      obtain ⟨⟨room, items⟩, e⟩ := p
      obtain ⟨a, b, hd, hab⟩ := hdists
      obtain ⟨heD, hrest⟩ := queue_dists_cons hd hab
      subst heD
      have hunivrest : QUniv g required rest := fun p hp =>
        huniv p (List.mem_cons_of_mem _ hp)
      have hsuniv := huniv ((room, items), e) (List.mem_cons_self _ _)
      have hsU : (room, items) ∈ stateUniverse g required :=
        Finset.mem_product.2 ⟨List.mem_toFinset.2 hsuniv.1, Finset.mem_powerset.2 hsuniv.2⟩
      by_cases hmem : (room, items) ∈ V
      · obtain ⟨D', core', dists'⟩ := normalize_step (core.skip hmem) hrest
        have hmeas : bfsMeasure g required V rest ≤ fuel := by
          have := bfsMeasure_cons g required V ((room, items), e) rest
          omega
        have hstep : bfsLoop g required (fuel + 1) V (((room, items), e) :: rest) =
            bfsLoop g required fuel V rest := by
          simp only [bfsLoop, if_pos hmem]
        rw [hstep]
        exact ih V rest D' core' dists' hunivrest hmeas
      · by_cases hvil : roomIsVillain (g.roomOf room) = true
        · by_cases hwin : required ⊆ pickupItems required (g.roomOf room) items
          · left
            refine ⟨e, ?_,
              ⟨(room, items), core.soundQ _ (List.mem_cons_self _ _), hvil, hwin⟩,
              fun m hme hw => hw.elim (fun u hu => core.noGoalBelow m hme u hu.1 hu.2)⟩
            simp only [bfsLoop, if_neg hmem, if_pos hvil, if_pos hwin]
          · have hgoal : ¬ bfsGoal g required (room, items) := fun hg => hwin hg.2
            have core2 := core.expand hmem hgoal
            have hsnil : bfsSuccs g required (room, items) = [] := by
              simp [bfsSuccs, hvil]
            rw [hsnil, List.map_nil, List.append_nil] at core2
            obtain ⟨D', core', dists'⟩ := normalize_step core2 hrest
            have hmeas : bfsMeasure g required ((room, items) :: V) rest ≤ fuel := by
              have h1 := bfsMeasure_visit_le g required V (room, items) e rest []
                hsU hmem (by simp)
              rw [List.append_nil] at h1
              omega
            have hstep : bfsLoop g required (fuel + 1) V (((room, items), e) :: rest) =
                bfsLoop g required fuel ((room, items) :: V) rest := by
              simp only [bfsLoop, if_neg hmem, if_pos hvil, if_neg hwin]
            rw [hstep]
            exact ih ((room, items) :: V) rest D' core' dists' hunivrest hmeas
        · have hvilF : roomIsVillain (g.roomOf room) = false := by
            rwa [Bool.not_eq_true] at hvil
          have hgoal : ¬ bfsGoal g required (room, items) := fun hg => hvil hg.1
          have core2 := core.expand hmem hgoal
          have hform : (bfsSuccs g required (room, items)).map (fun u => (u, e + 1)) =
              (g.neighbors room).map
                (fun x => ((x.2, pickupItems required (g.roomOf room) items), e + 1)) := by
            simp only [bfsSuccs, hvilF, Bool.false_eq_true, if_false, List.map_map]
            rfl
          have hdists2 := queue_dists_append (bfsSuccs g required (room, items)) hrest
          obtain ⟨D', core', dists'⟩ := normalize_step core2 hdists2
          have hulen : ((bfsSuccs g required (room, items)).map
              (fun u => (u, e + 1))).length ≤ maxExitCount g := by
            rw [List.length_map]
            exact bfsSuccs_length_le g required (room, items)
          have hmeas : bfsMeasure g required ((room, items) :: V)
              (rest ++ (bfsSuccs g required (room, items)).map (fun u => (u, e + 1))) ≤
                fuel := by
            have h1 := bfsMeasure_visit_le g required V (room, items) e rest
              ((bfsSuccs g required (room, items)).map (fun u => (u, e + 1))) hsU hmem hulen
            omega
          have huniv2 : QUniv g required
              (rest ++ (bfsSuccs g required (room, items)).map (fun u => (u, e + 1))) := by
            intro p hp
            rcases List.mem_append.1 hp with h | h
            · exact hunivrest p h
            · obtain ⟨u, hu, rfl⟩ := List.mem_map.1 h
              exact bfsSuccs_univ HW hsuniv.2 u hu
          have hstep : bfsLoop g required (fuel + 1) V (((room, items), e) :: rest) =
              bfsLoop g required fuel ((room, items) :: V)
                (rest ++ (g.neighbors room).map
                  (fun x => ((x.2, pickupItems required (g.roomOf room) items), e + 1))) := by
            simp only [bfsLoop, if_neg hmem, hvilF, Bool.false_eq_true, if_false]
          rw [hstep, ← hform]
          exact ih ((room, items) :: V)
            (rest ++ (bfsSuccs g required (room, items)).map (fun u => (u, e + 1)))
            D' core' dists' huniv2 hmeas

/-- `compute_optimal_moves` returns the least winning distance when one
exists, and the unsolvable error exactly when none does. -/
theorem compute_optimal_moves_spec (g : MapGraph) (start : String) (required : Finset String)
    (HW : GraphClosed g) (hstart : start ∈ g.roomNames) :
    ((∃ n, WinAt g required (start, ∅) n) →
      ∃ d, compute_optimal_moves g start required = .ok d ∧ WinAt g required (start, ∅) d ∧
        ∀ m < d, ¬ WinAt g required (start, ∅) m) ∧
    ((¬ ∃ n, WinAt g required (start, ∅) n) →
      compute_optimal_moves g start required = .error "Level is not solvable") := by
  have core : BfsCore g required (start, ∅) [] [((start, ∅), 0)] 0 := by
    refine ⟨?_, ?_, ?_, ?_, ?_⟩
    · rintro p hp
      rcases List.mem_cons.1 hp with rfl | h
      · exact BfsReach.zero
      · cases h
    · intro m hm
      omega
    · intro m hm u hr
      interval_cases m
      cases hr
      exact Or.inr ⟨0, le_rfl, List.mem_cons_self _ _⟩
    · rintro t ht
      cases ht
    · rintro t ht
      cases ht
  have hdists : QueueDists [((start, ∅), 0)] 0 := by
    refine ⟨1, 0, ?_, by omega⟩
    simp
  have huniv : QUniv g required [((start, ∅), 0)] := by
    rintro p hp
    rcases List.mem_cons.1 hp with rfl | h
    · exact ⟨hstart, Finset.empty_subset _⟩
    · cases h
  have hmeas : bfsMeasure g required [] [((start, ∅), 0)] ≤ bfsFuel g required := by
    unfold bfsMeasure bfsFuel
    simp
  have hspec := bfsLoop_spec g required (start, ∅) HW (bfsFuel g required) []
    [((start, ∅), 0)] 0 core hdists huniv hmeas
  constructor
  · intro hwin
    rcases hspec with ⟨d, heq, hw, hmin⟩ | ⟨heq, hnone⟩
    · refine ⟨d, ?_, hw, hmin⟩
      unfold compute_optimal_moves
      rw [heq]
    · obtain ⟨n, hn⟩ := hwin
      exact absurd hn (hnone n)
  · intro hnwin
    rcases hspec with ⟨d, heq, hw, hmin⟩ | ⟨heq, hnone⟩
    · exact absurd ⟨d, hw⟩ hnwin
    · unfold compute_optimal_moves
      rw [heq]

/-- Collecting along a path plus one room is a final pickup. -/
theorem collectAlong_concat (g : MapGraph) (required : Finset String) (items : Finset String)
    (q : List String) (y : String) :
    collectAlong g required items (q ++ [y]) =
      pickupItems required (g.roomOf y) (collectAlong g required items q) := by
  induction q generalizing items with
  | nil => rfl
  | cons x xs ih =>
    rw [List.cons_append, collectAlong, collectAlong]
    exact ih _

/-- Collecting along a non-empty room sequence is a pickup at its last room
applied to the collection along its front. -/
theorem collectAlong_cons_eq_pickup_last (g : MapGraph) (required : Finset String)
    (items : Finset String) (start : String) (p : List String) :
    collectAlong g required items (start :: p) =
      pickupItems required (g.roomOf (p.getLastD start))
        (collectAlong g required items ((start :: p).dropLast)) := by
  induction p using List.reverseRecOn with
  | nil => rfl
  | append_singleton q y _ =>
    rw [show start :: (q ++ [y]) = (start :: q) ++ [y] from rfl, collectAlong_concat,
      List.getLastD_concat, List.dropLast_concat]

/-- A path extended by one room is a path to an exit of its last room. -/
theorem isPathFrom_concat (g : MapGraph) :
    ∀ (q : List String) (r y : String),
      isPathFrom g r (q ++ [y]) =
        (isPathFrom g r q && (g.neighbors (q.getLastD r)).any (fun x => x.2 == y)) := by
  intro q
  induction q with
  | nil =>
    intro r y
    simp [isPathFrom]
  | cons x xs ih =>
    intro r y
    rw [List.cons_append, isPathFrom, ih, isPathFrom, List.getLastD_cons, Bool.and_assoc]

/-- The last element with default heads the list it defaults over. -/
theorem getLastD_mem_cons : ∀ (l : List String) (a : String), l.getLastD a ∈ a :: l := by
  intro l
  induction l with
  | nil =>
    intro a
    simp
  | cons x xs ih =>
    intro a
    rw [List.getLastD_cons]
    exact List.mem_cons_of_mem a (ih x)

/-- Membership in a non-empty list splits into its front or its last. -/
theorem mem_cons_dropLast_or_getLastD {x start : String} {p : List String}
    (h : x ∈ start :: p) :
    x ∈ (start :: p).dropLast ∨ x = p.getLastD start := by
  induction p using List.reverseRecOn with
  | nil =>
    right
    simpa using h
  | append_singleton q y _ =>
    rw [show start :: (q ++ [y]) = (start :: q) ++ [y] from rfl] at h
    rcases List.mem_append.1 h with h1 | h1
    · left
      rw [show start :: (q ++ [y]) = (start :: q) ++ [y] from rfl, List.dropLast_concat]
      exact h1
    · right
      rw [List.getLastD_concat]
      simpa using h1

/-- Every BFS-reachable state is realized by a path of the same length whose
front avoids the villain, carrying exactly the items collected on the way. -/
theorem reach_to_path {g : MapGraph} {required : Finset String} {start : String} :
    ∀ {n : ℕ} {s : BState}, BfsReach g required (start, ∅) n s →
      ∃ p : List String, isPathFrom g start p = true ∧ p.length = n ∧
        p.getLastD start = s.1 ∧
        (∀ x ∈ (start :: p).dropLast, roomIsVillain (g.roomOf x) = false) ∧
        s.2 = collectAlong g required ∅ ((start :: p).dropLast) := by
  intro n s h
  induction h with
  | zero => exact ⟨[], rfl, rfl, rfl, by simp, rfl⟩
  | @step n' s' t hr hmem ih =>
    obtain ⟨p, hp, hlen, hlast, hnv, hitems⟩ := ih
    have hvilF : roomIsVillain (g.roomOf s'.1) = false := by
      by_contra hc
      rw [Bool.not_eq_false] at hc
      rw [bfsSuccs, if_pos hc] at hmem
      cases hmem
    rw [bfsSuccs, if_neg (by simp [hvilF])] at hmem
    obtain ⟨x, hx, rfl⟩ := List.mem_map.1 hmem
    refine ⟨p ++ [x.2], ?_, ?_, ?_, ?_, ?_⟩
    · rw [isPathFrom_concat, hp, Bool.true_and, hlast]
      exact List.any_eq_true.2 ⟨x, hx, by simp⟩
    · simp [hlen]
    · rw [List.getLastD_concat]
    · intro z hz
      rw [show start :: (p ++ [x.2]) = (start :: p) ++ [x.2] from rfl,
        List.dropLast_concat] at hz
      rcases mem_cons_dropLast_or_getLastD hz with h1 | h1
      · exact hnv z h1
      · rw [h1, hlast]
        exact hvilF
    · show pickupItems required (g.roomOf s'.1) s'.2 = _
      rw [show start :: (p ++ [x.2]) = (start :: p) ++ [x.2] from rfl, List.dropLast_concat,
        collectAlong_cons_eq_pickup_last, hlast, ← hitems]

/-- Every villain-avoiding path realizes a BFS-reachable state. -/
theorem path_to_reach {g : MapGraph} {required : Finset String} {start : String} :
    ∀ (p : List String), isPathFrom g start p = true →
      (∀ x ∈ (start :: p).dropLast, roomIsVillain (g.roomOf x) = false) →
      BfsReach g required (start, ∅) p.length
        (p.getLastD start, collectAlong g required ∅ ((start :: p).dropLast)) := by
  intro p
  induction p using List.reverseRecOn with
  | nil =>
    intro _ _
    exact BfsReach.zero
  | append_singleton q y ih =>
    intro hpath hnv
    rw [isPathFrom_concat, Bool.and_eq_true] at hpath
    obtain ⟨hq, hany⟩ := hpath
    have hnv' : ∀ x ∈ (start :: q).dropLast, roomIsVillain (g.roomOf x) = false := by
      intro x hx
      apply hnv
      rw [show start :: (q ++ [y]) = (start :: q) ++ [y] from rfl, List.dropLast_concat]
      exact (List.dropLast_sublist (start :: q)).subset hx
    have hreach := ih hq hnv'
    have hvlast : roomIsVillain (g.roomOf (q.getLastD start)) = false := by
      apply hnv
      rw [show start :: (q ++ [y]) = (start :: q) ++ [y] from rfl, List.dropLast_concat]
      exact getLastD_mem_cons q start
    obtain ⟨x, hx, hbeq⟩ := List.any_eq_true.1 hany
    have hy : x.2 = y := eq_of_beq hbeq
    have hstep : (y, pickupItems required (g.roomOf (q.getLastD start))
        (collectAlong g required ∅ ((start :: q).dropLast))) ∈
          bfsSuccs g required
            (q.getLastD start, collectAlong g required ∅ ((start :: q).dropLast)) := by
      rw [bfsSuccs, if_neg (by rw [hvlast]; simp)]
      exact List.mem_map.2 ⟨x, hx, by rw [hy]⟩
    have hnext := BfsReach.step hreach hstep
    rw [show start :: (q ++ [y]) = (start :: q) ++ [y] from rfl, List.dropLast_concat,
      List.getLastD_concat, collectAlong_cons_eq_pickup_last]
    simpa using hnext

/-- A goal state is reachable in `n` steps exactly when a winning path of `n`
moves exists. -/
theorem winAt_iff (g : MapGraph) (required : Finset String) (start : String) (n : ℕ) :
    WinAt g required (start, ∅) n ↔
      ∃ p, winningPath g required start p = true ∧ p.length = n := by
  constructor
  · rintro ⟨s, hr, hg⟩
    obtain ⟨p, hp, hlen, hlast, hnv, hitems⟩ := reach_to_path hr
    refine ⟨p, ?_, hlen⟩
    unfold winningPath
    rw [Bool.and_eq_true, Bool.and_eq_true, Bool.and_eq_true]
    refine ⟨⟨⟨hp, ?_⟩, ?_⟩, ?_⟩
    · rw [List.all_eq_true]
      intro x hx
      rw [hnv x hx]
      rfl
    · rw [hlast]
      exact hg.1
    · exact decide_eq_true
        (by rw [collectAlong_cons_eq_pickup_last, hlast, ← hitems]; exact hg.2)
  · rintro ⟨p, hwp, rfl⟩
    unfold winningPath at hwp
    rw [Bool.and_eq_true, Bool.and_eq_true, Bool.and_eq_true] at hwp
    obtain ⟨⟨⟨hp, hall⟩, hvl⟩, hsub⟩ := hwp
    have hnv : ∀ x ∈ (start :: p).dropLast, roomIsVillain (g.roomOf x) = false := by
      intro x hx
      simpa using List.all_eq_true.1 hall x hx
    refine ⟨_, path_to_reach p hp hnv, hvl, ?_⟩
    rw [← collectAlong_cons_eq_pickup_last]
    exact of_decide_eq_true hsub

/-- A passing structural validation certifies the start room and exit
closure. -/
theorem validate_ok_conditions (d : LevelDefn)
    (h : validate_level_definition d = .ok ()) :
    d.start_room ∈ d.roomNames ∧
      ∀ rd ∈ d.rooms, ∀ e ∈ rd.2.exits, e.2 ∈ d.roomNames := by
  unfold validate_level_definition at h
  split_ifs at h with h1 h2 h3 h4
  constructor
  · have h1' : d.roomNames.contains d.start_room = true := by simpa using h1
    simpa using h1'
  · intro rd hrd e he
    by_contra hc
    apply h2
    rw [List.any_eq_true]
    refine ⟨rd, hrd, ?_⟩
    rw [List.any_eq_true]
    refine ⟨e, he, ?_⟩
    simp only [Bool.not_eq_true']
    simpa using hc

/-- The assembled map's room names are the definition's room names. -/
theorem buildMapGraph_roomNames (d : LevelDefn) :
    (buildMapGraph d).roomNames = d.roomNames := by
  unfold buildMapGraph MapGraph.roomNames LevelDefn.roomNames
  rw [List.map_map]
  rfl

/-- Exit closure of the assembled map, from a passing validation. -/
theorem buildMapGraph_closed (d : LevelDefn)
    (hex : ∀ rd ∈ d.rooms, ∀ e ∈ rd.2.exits, e.2 ∈ d.roomNames) :
    GraphClosed (buildMapGraph d) := by
  apply graphClosed_of_rooms
  intro rd hrd e he
  obtain ⟨⟨name, rdef⟩, hmem, rfl⟩ := List.mem_map.1 hrd
  rw [buildMapGraph_roomNames]
  exact hex (name, rdef) hmem e he

/-- With all item kinds known, room construction succeeds and yields exactly
the assembled map's room list. -/
theorem buildRooms_eq : ∀ (rooms : List (String × RoomDef)),
    (∀ rd ∈ rooms, ∀ it, rd.2.item = some it → it.type = "relic" ∨ it.type = "villain") →
    buildRooms rooms = .ok (rooms.map (fun rd =>
      (rd.1, { name := rd.1, exits := rd.2.exits, item := itemOfDef rd.2.item }))) := by
  intro rooms
  induction rooms with
  | nil => intro _; rfl
  | cons rd rest ih =>
    intro hall
    obtain ⟨name, rdef⟩ := rd
    have htail := ih (fun rd2 hrd2 => hall rd2 (List.mem_cons_of_mem _ hrd2))
    cases hitem : rdef.item with
    | none =>
      simp only [buildRooms, hitem, htail, itemOfDef, List.map_cons]
    | some it =>
      rcases hall (name, rdef) (List.mem_cons_self _ _) it hitem with htype | htype
      · have hbeq : (it.type == "relic") = true := by rw [htype]; rfl
        simp only [buildRooms, hitem, hbeq, if_true, htail, itemOfDef, List.map_cons]
      · have hbeq1 : (it.type == "relic") = false := by
          rw [htype]
          rfl
        have hbeq2 : (it.type == "villain") = true := by rw [htype]; rfl
        simp only [buildRooms, hitem, hbeq1, hbeq2, Bool.false_eq_true, if_false, if_true,
          htail, itemOfDef, List.map_cons]

/-- `itemTypesKnown` in elimination form. -/
theorem itemTypesKnown_elim {d : LevelDefn} (h : itemTypesKnown d = true) :
    ∀ rd ∈ d.rooms, ∀ it, rd.2.item = some it → it.type = "relic" ∨ it.type = "villain" := by
  intro rd hrd it hit
  have := List.all_eq_true.1 h rd hrd
  rw [hit] at this
  rcases Bool.or_eq_true_iff.1 this with hb | hb
  · exact Or.inl (by simpa using hb)
  · exact Or.inr (by simpa using hb)

/-- Under well-formedness, `from_definition` reduces to the solver's verdict
on the assembled map. -/
theorem from_definition_eq (d : LevelDefn)
    (hval : validate_level_definition d = .ok ())
    (hitems : itemTypesKnown d = true) :
    LevelFactory.from_definition d =
      match compute_optimal_moves (buildMapGraph d) d.start_room d.required_items.toFinset with
      | .error e => .error e
      | .ok om =>
        match Difficulty.ofValue d.difficulty with
        | none => .error ("Unhandled difficulty: " ++ d.difficulty)
        | some difficulty =>
          .ok { id := d.id
                name := d.name
                difficulty := difficulty
                start_room := d.start_room
                map := buildMapGraph d
                rules := { required_items := d.required_items.toFinset }
                optimal_moves := some om } := by
  unfold LevelFactory.from_definition
  rw [hval, buildRooms_eq d.rooms (itemTypesKnown_elim hitems)]
  rfl

/-- A passing validation in `isOk` form returns exactly `ok ()`. -/
theorem validate_isOk_elim {d : LevelDefn}
    (h : (validate_level_definition d).isOk = true) :
    validate_level_definition d = .ok () := by
  cases hv : validate_level_definition d with
  | ok v =>
    cases v
    rfl
  | error s =>
    rw [hv] at h
    simp [Except.isOk, Except.toBool] at h

/-- C3 (confirmed): for every well-formed level definition, if some winning
path exists (a move sequence from the start room that never stands in the
villain's room before its last step, ends in the villain's room, and has
collected a superset of the required items), `from_definition` succeeds and
the level's `optimal_moves` is the least length of such a path; if no winning
path exists, construction fails with the unsolvable-level error and no level
is returned. -/
theorem claim_C3 (d : LevelDefn) (hwf : WellFormedDefn d) :
    ((∃ p, winningPath (buildMapGraph d) d.required_items.toFinset d.start_room p = true) →
      ∃ lvl n, LevelFactory.from_definition d = .ok lvl ∧ lvl.optimal_moves = some n ∧
        IsLeast {k | ∃ p,
          winningPath (buildMapGraph d) d.required_items.toFinset d.start_room p = true ∧
            p.length = k} n) ∧
    ((¬ ∃ p, winningPath (buildMapGraph d) d.required_items.toFinset d.start_room p = true) →
      LevelFactory.from_definition d = .error "Level is not solvable") := by
  obtain ⟨hvalOk, hitems, hdiff⟩ := hwf
  have hval := validate_isOk_elim hvalOk
  obtain ⟨hstart, hex⟩ := validate_ok_conditions d hval
  have HW := buildMapGraph_closed d hex
  have hstart2 : d.start_room ∈ (buildMapGraph d).roomNames := by
    rw [buildMapGraph_roomNames]
    exact hstart
  have hspec := compute_optimal_moves_spec (buildMapGraph d) d.start_room
    d.required_items.toFinset HW hstart2
  obtain ⟨diffv, hdiffv⟩ := Option.isSome_iff_exists.1 hdiff
  constructor
  · rintro ⟨p, hp⟩
    have hwin : ∃ n, WinAt (buildMapGraph d) d.required_items.toFinset (d.start_room, ∅) n :=
      ⟨p.length, (winAt_iff _ _ _ _).2 ⟨p, hp, rfl⟩⟩
    obtain ⟨dist, hcomp, hw, hmin⟩ := hspec.1 hwin
    refine ⟨{ id := d.id
              name := d.name
              difficulty := diffv
              start_room := d.start_room
              map := buildMapGraph d
              rules := { required_items := d.required_items.toFinset }
              optimal_moves := some dist }, dist, ?_, rfl, ?_, ?_⟩
    · rw [from_definition_eq d hval hitems, hcomp, hdiffv]
    · exact (winAt_iff _ _ _ _).1 hw
    · rintro k ⟨q, hq, rfl⟩
      by_contra hlt
      push_neg at hlt
      exact hmin _ hlt ((winAt_iff _ _ _ _).2 ⟨q, hq, rfl⟩)
  · intro hns
    have hnone : ¬ ∃ n, WinAt (buildMapGraph d) d.required_items.toFinset
        (d.start_room, ∅) n := by
      rintro ⟨n, hn⟩
      obtain ⟨p, hp, -⟩ := (winAt_iff _ _ _ _).1 hn
      exact hns ⟨p, hp⟩
    rw [from_definition_eq d hval hitems, hspec.2 hnone]

/-- C3 witness: the two-room demo definition is well-formed and solvable via
the one-move path into the lair, so construction succeeds with the least
winning-path length as `optimal_moves`. -/
theorem claim_C3_witness :
    ∃ lvl n, LevelFactory.from_definition demoDefn = .ok lvl ∧ lvl.optimal_moves = some n ∧
      IsLeast {k | ∃ p,
        winningPath (buildMapGraph demoDefn) demoDefn.required_items.toFinset
          demoDefn.start_room p = true ∧ p.length = k} n :=
  (claim_C3 demoDefn ⟨by decide, by decide, by decide⟩).1 ⟨["Lair"], by decide⟩
